import Mathlib

/-!
Verification of the fleure-db advisory pipeline (fleure_db/create.py and
fleure_db/utils.py) against its natural-language specification.

The Python code is shallowly embedded: each relevant source function becomes
an executable Lean definition over typed views of the nested dict/list
records the code manipulates.  Python exceptions are modelled with
`Except Err`; Python dicts become association lists that preserve insertion
order; machine integers do not occur (Python ints are unbounded, as is Nat).
-/

set_option autoImplicit false

namespace FleureDb

/-- Scalar Python value stored in the nested advisory records: a string, a
non-negative integer, or the Python value None. -/
inductive Lit where
  | str : String → Lit
  | int : Nat → Lit
  | null : Lit
  deriving DecidableEq, Repr

/-- Kinds of Python exceptions raised by the modelled code paths. -/
inductive Err where
  | keyError : String → Err
  | indexError : Err
  | attributeError : Err
  | typeError : Err
  | nameError : String → Err
  | valueError : String → Err
  | interfaceError : Err
  deriving DecidableEq, Repr

instance {ε α : Type} [DecidableEq ε] [DecidableEq α] : DecidableEq (Except ε α) := fun a b =>
  match a, b with
  | Except.error e, Except.error f =>
    if h : e = f then isTrue (congrArg Except.error h)
    else isFalse (fun hh => h (Except.error.inj hh))
  | Except.ok x, Except.ok y =>
    if h : x = y then isTrue (congrArg Except.ok h)
    else isFalse (fun hh => h (Except.ok.inj hh))
  | Except.error _, Except.ok _ => isFalse (fun hh => Except.noConfusion hh)
  | Except.ok _, Except.error _ => isFalse (fun hh => Except.noConfusion hh)

/-- First value bound to a key in an association list, Python `d.get(k)`. -/
def dictGet {α : Type} : List (String × α) → String → Option α
  | [], _ => none
  | (k', v) :: rest, k => if k' = k then some v else dictGet rest k

/-- Python dict indexing `d[k]`: KeyError when the key is absent. -/
def dictIndex {α : Type} (d : List (String × α)) (k : String) : Except Err α :=
  match dictGet d k with
  | some v => Except.ok v
  | none => Except.error (Err.keyError k)

/-- Python dict assignment `d[k] = v`: replace the value in place when the
key is present, otherwise append a new binding at the end. -/
def dictSet {α : Type} : List (String × α) → String → α → List (String × α)
  | [], k, v => [(k, v)]
  | (k', v') :: rest, k, v =>
    if k' = k then (k, v) :: rest else (k', v') :: dictSet rest k v

/-- Numeric value of a decimal digit string, most significant digit first. -/
def digitsToNat (cs : List Char) : Nat :=
  cs.foldl (fun a c => a * 10 + (c.toNat - 48)) 0

/-- Python `int(s)` restricted to the all-digit strings produced by the id
derivation; any other string raises ValueError. -/
def pyIntOfChars (cs : List Char) : Except Err Nat :=
  if cs ≠ [] ∧ cs.all Char.isDigit then Except.ok (digitsToNat cs)
  else Except.error (Err.valueError "invalid literal for int")

/-- Python `s.split(sep)` for a one-character separator: split at every
occurrence, keeping empty parts; the result is always non-empty. -/
def pySplit (sep : Char) : List Char → List (List Char)
  | [] => [[]]
  | c :: cs =>
    let rest := pySplit sep cs
    if c = sep then [] :: rest
    else
      match rest with
      | [] => [[c]]
      | p :: ps => (c :: p) :: ps

/-- Mapping of update type vs. int, create.py line 132:
the dict RHSA to 0, RHBA to 1, RHEA to 2, read through
`typemap.get(utype, len(typemap))` so that unknown prefixes map to 3. -/
def utype_int_get (utype : List Char) : Nat :=
  if utype = "RHSA".data then 0
  else if utype = "RHBA".data then 1
  else if utype = "RHEA".data then 2
  else 3

/-- Models `_int_from_update(adv)` (create.py lines 137-154) on the character
list of the advisory code: split on the dash into (utype, serial), split the
serial on the colon into (year, seq), and parse the decimal concatenation
10, tid, 0, year, seq, 0 as one integer.  A split that does not produce
exactly two parts fails tuple unpacking with ValueError. -/
def int_from_update_ch (adv : List Char) : Except Err Nat :=
  match pySplit '-' adv with
  | [utype, serial] =>
    match pySplit ':' serial with
    | [year, seq] =>
      let tid := utype_int_get utype
      pyIntOfChars ('1' :: '0' :: (toString tid).data ++ '0' :: year ++ seq ++ ['0'])
    | _ => Except.error (Err.valueError "unpack")
  | _ => Except.error (Err.valueError "unpack")

/-- Models `_int_from_update` on a string advisory code. -/
def int_from_update (adv : String) : Except Err Nat :=
  int_from_update_ch adv.data

/-- Python scalar that is either a string or an int: the update dict field
id holds the advisory-code string before create.py line 284 and the derived
integer after it. -/
inductive StrOrInt where
  | str : String → StrOrInt
  | int : Nat → StrOrInt
  deriving DecidableEq, Repr

/-- Module-level default type map of create.py line 133:
the dict display is written with the bare names RHSA, RHBA and RHEA as keys,
and those names are neither defined nor imported in create.py, so evaluating
it raises NameError. -/
def UTYPE_TYPE_MAP : Except Err (List (String × String)) :=
  Except.error (Err.nameError "RHSA")

/-- Mapping the intent of create.py line 133 evidently was, per the doctest
of `_type_from_update` and the constants of globals.py (RHSA security, RHBA
bug, RHEA enhancement). -/
def INTENDED_UTYPE_TYPE_MAP : List (String × String) :=
  [("RHSA", "security"), ("RHBA", "bug"), ("RHEA", "enhancement")]

/-- Models `_type_from_update(adv, typemap)` (create.py lines 157-171):
resolve the default typemap first (its evaluation raises NameError), then
take `adv.split` on the dash (AttributeError when adv is an int) and index
the map with the first part (KeyError when absent). -/
def type_from_update (adv : StrOrInt) (typemap : Option (List (String × String))) :
    Except Err String := do
  let tm ← match typemap with
           | none => UTYPE_TYPE_MAP
           | some m => Except.ok m
  match adv with
  | StrOrInt.int _ => Except.error Err.attributeError
  | StrOrInt.str s =>
    let utype := String.mk ((pySplit '-' s.data).headD [])
    dictIndex tm utype

/-- Models create.py lines 282-285: derive the integer id from the advisory
code, overwrite the update id field with it, then compute the update type by
calling `_type_from_update` on that already-replaced integer id. -/
def derive_id_and_type (advisory_code : String) : Except Err (Nat × String) := do
  let uid ← int_from_update advisory_code
  let ty ← type_from_update (StrOrInt.int uid) none
  Except.ok (uid, ty)

/-- Reference dict of one advisory cross-reference: the mapping holding href,
type, id and title values. -/
abbrev RefDict := List (String × Lit)

/-- Shape of the raw references node of an update: the XML conversion yields
a single wrapper mapping when there is exactly one child and a list of
wrapper mappings when there are several; each wrapper binds the key
reference to the reference dict proper.  `other` covers any remaining
shape. -/
inductive RefsNode where
  | dict : List (String × RefDict) → RefsNode
  | list : List (List (String × RefDict)) → RefsNode
  | other : RefsNode
  deriving DecidableEq, Repr

/-- Models `_url_from_update(update)` (create.py lines 223-235).  The
argument is the value of the update references key; an absent key (`none`)
raises KeyError at the indexing on line 228.  Note that the list branch of
the source looks up the key with a leading space, written here exactly as in
line 232. -/
def url_from_update (references : Option RefsNode) : Except Err (Option Lit) :=
  match references with
  | none => Except.error (Err.keyError "references")
  | some (RefsNode.dict r) => do
    let rd ← dictIndex r "reference"
    Except.ok (dictGet rd "href")
  | some (RefsNode.list rs) =>
    match rs with
    | [] => Except.error Err.indexError
    | r0 :: _ => do
      let rd ← dictIndex r0 "reference"
      Except.ok (dictGet rd " href")
  | some RefsNode.other => Except.error (Err.valueError "refs")

/-- Atom of the errata-URL regular expression of create.py line 238: a
literal character, the wildcard dot (any character but newline), or the
digit class. -/
inductive PatAtom where
  | lit : Char → PatAtom
  | anyc : PatAtom
  | digit : PatAtom
  deriving DecidableEq, Repr

/-- Whether one pattern atom matches one character. -/
def patAtomMatches : PatAtom → Char → Bool
  | PatAtom.lit c, x => x = c
  | PatAtom.anyc, x => x ≠ '\n'
  | PatAtom.digit, x => x.isDigit

/-- Match a fixed-length atom sequence against the beginning of the input,
returning the consumed characters and the rest. -/
def matchAtoms : List PatAtom → List Char → Option (List Char × List Char)
  | [], cs => some ([], cs)
  | _ :: _, [] => none
  | a :: as, c :: cs =>
    if patAtomMatches a c then
      match matchAtoms as cs with
      | some (t, r) => some (c :: t, r)
      | none => none
    else none

/-- Literal atoms of a string. -/
def strLitAtoms (s : String) : List PatAtom := s.data.map PatAtom.lit

/-- Atoms of the errata-URL pattern before the capture group; the dots of
the host name are regex wildcards. -/
def eurlPre : List PatAtom :=
  strLitAtoms "http://access" ++ [PatAtom.anyc] ++ strLitAtoms "redhat"
    ++ [PatAtom.anyc] ++ strLitAtoms "com/errata/"

/-- Atoms of the fixed-length head of the capture group: RH, a wildcard, the
literal A and dash, four digits and a colon. -/
def eurlGroupHead : List PatAtom :=
  strLitAtoms "RH" ++ [PatAtom.anyc] ++ strLitAtoms "A-"
    ++ [PatAtom.digit, PatAtom.digit, PatAtom.digit, PatAtom.digit] ++ [PatAtom.lit ':']

/-- Suffix check after the greedy digit run: one wildcard character followed
by the literal html. -/
def eurlTailOk (cs : List Char) : Bool :=
  match cs with
  | [] => false
  | c :: rest => c ≠ '\n' && List.isPrefixOf "html".data rest

/-- Greedy backtracking of the final digit-plus: try the longest digit
prefixes first, in decreasing order, exactly as the regex engine does. -/
def eurlSeqTry (cs : List Char) : Nat → Option (List Char)
  | 0 => none
  | j + 1 =>
    if eurlTailOk (cs.drop (j + 1)) then some (cs.take (j + 1))
    else eurlSeqTry cs j

/-- Models `_EURL_RE.match(href)` (create.py lines 238 and 257), returning the
capture group: the advisory code extracted from an errata detail URL,
matched at the start of the string with any suffix allowed. -/
def eurlMatch (href : String) : Option String :=
  match matchAtoms eurlPre href.data with
  | none => none
  | some (_, r1) =>
    match matchAtoms eurlGroupHead r1 with
    | none => none
    | some (g1, r2) =>
      match eurlSeqTry r2 (r2.takeWhile Char.isDigit).length with
      | none => none
      | some ds => some (String.mk (g1 ++ ds))

/-- Python equality of a dict value against a string literal: only a string
value can compare equal. -/
def litEqStr (v : Lit) (s : String) : Bool :=
  match v with
  | Lit.str t => t = s
  | _ => false

/-- Comparison `ref[k] == s` done on a reference dict whose key k is known to
be present; an absent key yields false (the callers only use this after the
presence check or on surviving references). -/
def refValEq (ref : RefDict) (k s : String) : Bool :=
  match dictGet ref k with
  | some v => litEqStr v s
  | none => false

/-- Body of the loop of `_process_refs_itr` (create.py lines 249-264) for one
reference dict: skip it (`none`) when the id or type key is missing, when
the type is self, or when the id is the literal classification; reclassify
an other-typed reference whose href matches the errata URL pattern by
setting type to errata, title to the extracted advisory code and id to its
derived integer; otherwise yield the reference unchanged. -/
def process_one_ref (ref : RefDict) : Except Err (Option RefDict) :=
  if (dictGet ref "id").isNone || (dictGet ref "type").isNone then
    Except.ok none
  else if refValEq ref "type" "self" || refValEq ref "id" "classification" then
    Except.ok none
  else if refValEq ref "type" "other" then do
    let hv ← dictIndex ref "href"
    match hv with
    | Lit.str h =>
      match eurlMatch h with
      | some adv => do
        let n ← int_from_update adv
        Except.ok (some (dictSet (dictSet (dictSet ref "type" (Lit.str "errata"))
                                          "title" (Lit.str adv)) "id" (Lit.int n)))
      | none => Except.ok (some ref)
    | _ => Except.error Err.typeError
  else
    Except.ok (some ref)

/-- Iteration of `_process_refs_itr` over the wrapper list: each element is a
dict binding the key reference; processed references are collected in order
and the first raised exception aborts the whole traversal, as at the list()
call site of create.py line 296. -/
def process_ref_wrappers : List (List (String × RefDict)) → Except Err (List RefDict)
  | [] => Except.ok []
  | w :: ws => do
    let ref ← dictIndex w "reference"
    let o ← process_one_ref ref
    let rest ← process_ref_wrappers ws
    Except.ok (match o with | some r => r :: rest | none => rest)

/-- Models `list(_process_refs_itr(refs))` (create.py lines 241-264 with the
call of line 296): a missing node defaults to the empty list, and any
argument that is not a non-empty list yields nothing. -/
def process_refs_itr (refs : Option RefsNode) : Except Err (List RefDict) :=
  match refs with
  | some (RefsNode.list (w :: ws)) => process_ref_wrappers (w :: ws)
  | _ => Except.ok []

/-- Models create.py lines 296-298: the processed reference list together
with its cve and bugzilla partitions. -/
def classify_references (refs : Option RefsNode) :
    Except Err (List RefDict × List RefDict × List RefDict) := do
  let out ← process_refs_itr refs
  Except.ok (out, out.filter (fun r => refValEq r "type" "cve"),
             out.filter (fun r => refValEq r "type" "bugzilla"))

/-- Nested Python value as produced by the XML-to-dict conversion. -/
inductive PyVal where
  | str : String → PyVal
  | int : Nat → PyVal
  | null : PyVal
  | dict : List (String × PyVal) → PyVal
  | list : List PyVal → PyVal
  deriving Repr

mutual
/-- Models `_get_value(dic, key)` (create.py lines 206-220): look the key up
in the dict and unwrap nested values; a non-dict first argument has no get
attribute. -/
def get_value : PyVal → String → Except Err (Option Lit)
  | PyVal.dict kvs, key => get_value_find kvs key
  | _, _ => Except.error Err.attributeError

/-- Walk of the dict entries, first binding of the key wins (`dic.get`);
an absent key gives None. -/
def get_value_find : List (String × PyVal) → String → Except Err (Option Lit)
  | [], _ => Except.ok none
  | (k, v) :: rest, key =>
    if k = key then get_value_cand v key else get_value_find rest key

/-- Dispatch of `_get_value` on the found candidate: None stays None, a
scalar is returned, a nested dict is searched again under its own first key
(py2 `candidate.keys()[0]`, IndexError when the dict is empty, and the first
key resolves to the head value), and a list recurses into its first element
with the same key (IndexError when empty). -/
def get_value_cand : PyVal → String → Except Err (Option Lit)
  | PyVal.null, _ => Except.ok none
  | PyVal.str s, _ => Except.ok (some (Lit.str s))
  | PyVal.int n, _ => Except.ok (some (Lit.int n))
  | PyVal.dict [], _ => Except.error Err.indexError
  | PyVal.dict ((k1, v1) :: _), _ => get_value_cand v1 k1
  | PyVal.list [], _ => Except.error Err.indexError
  | PyVal.list (x :: _), key => get_value x key
end

/-- Truncation to a 32-bit word. -/
def w32 (n : Nat) : Nat := n % 4294967296

/-- Addition of 32-bit words. -/
def wadd (a b : Nat) : Nat := w32 (a + b)

/-- Right rotation of a 32-bit word by k bits. -/
def rotr (k x : Nat) : Nat := w32 (x / 2 ^ k + x % 2 ^ k * 2 ^ (32 - k))

/-- Right shift. -/
def shr (k x : Nat) : Nat := x / 2 ^ k

/-- Bitwise complement of a 32-bit word. -/
def wnot (a : Nat) : Nat := 4294967295 - w32 a

/-- SHA-256 big sigma and small sigma functions. -/
def bsig0 (x : Nat) : Nat := Nat.xor (rotr 2 x) (Nat.xor (rotr 13 x) (rotr 22 x))

def bsig1 (x : Nat) : Nat := Nat.xor (rotr 6 x) (Nat.xor (rotr 11 x) (rotr 25 x))

def ssig0 (x : Nat) : Nat := Nat.xor (rotr 7 x) (Nat.xor (rotr 18 x) (shr 3 x))

def ssig1 (x : Nat) : Nat := Nat.xor (rotr 17 x) (Nat.xor (rotr 19 x) (shr 10 x))

/-- SHA-256 choice function. -/
def chf (x y z : Nat) : Nat := Nat.xor (Nat.land x y) (Nat.land (wnot x) z)

/-- SHA-256 majority function. -/
def majf (x y z : Nat) : Nat :=
  Nat.xor (Nat.land x y) (Nat.xor (Nat.land x z) (Nat.land y z))

/-- SHA-256 round constants (fractional parts of the cube roots of the first
sixty-four primes). -/
def K256 : List Nat :=
  [1116352408, 1899447441, 3049323471, 3921009573, 961987163, 1508970993,
   2453635748, 2870763221, 3624381080, 310598401, 607225278, 1426881987,
   1925078388, 2162078206, 2614888103, 3248222580, 3835390401, 4022224774,
   264347078, 604807628, 770255983, 1249150122, 1555081692, 1996064986,
   2554220882, 2821834349, 2952996808, 3210313671, 3336571891, 3584528711,
   113926993, 338241895, 666307205, 773529912, 1294757372, 1396182291,
   1695183700, 1986661051, 2177026350, 2456956037, 2730485921, 2820302411,
   3259730800, 3345764771, 3516065817, 3600352804, 4094571909, 275423344,
   430227734, 506948616, 659060556, 883997877, 958139571, 1322822218,
   1537002063, 1747873779, 1955562222, 2024104815, 2227730452, 2361852424,
   2428436474, 2756734187, 3204031479, 3329325298]

/-- SHA-256 initial hash value. -/
def H256 : List Nat :=
  [1779033703, 3144134277, 1013904242, 2773480762, 1359893119, 2600822924,
   528734635, 1541459225]

/-- Big-endian byte rendering of n on k bytes. -/
def beBytes : Nat → Nat → List Nat
  | 0, _ => []
  | k + 1, n => beBytes k (n / 256) ++ [n % 256]

/-- SHA-256 message padding of a byte list. -/
def sha256pad (msg : List Nat) : List Nat :=
  let len := msg.length
  let zeros := (119 - len % 64) % 64
  msg ++ 128 :: List.replicate zeros 0 ++ beBytes 8 (len * 8)

/-- Big-endian 32-bit words of a byte list (length a multiple of four). -/
def beWords : List Nat → List Nat
  | b0 :: b1 :: b2 :: b3 :: rest =>
    (((b0 * 256 + b1) * 256 + b2) * 256 + b3) :: beWords rest
  | _ => []

/-- Split a word list into blocks of sixteen words, given the block count. -/
def chunk16 : Nat → List Nat → List (List Nat)
  | 0, _ => []
  | b + 1, ws => ws.take 16 :: chunk16 b (ws.drop 16)

/-- Extension of a sixteen-word block to the sixty-four-word schedule. -/
def extendSched (ws : List Nat) : List Nat :=
  (List.range 48).foldl
    (fun acc _ =>
      let n := acc.length
      acc ++ [wadd (wadd (ssig1 (acc.getD (n - 2) 0)) (acc.getD (n - 7) 0))
                   (wadd (ssig0 (acc.getD (n - 15) 0)) (acc.getD (n - 16) 0))])
    ws

/-- One SHA-256 compression round. -/
def compressStep (st : List Nat) (kw : Nat × Nat) : List Nat :=
  match st with
  | [a, b, c, d, e, f, g, h] =>
    let t1 := wadd h (wadd (bsig1 e) (wadd (chf e f g) (wadd kw.1 kw.2)))
    let t2 := wadd (bsig0 a) (majf a b c)
    [wadd t1 t2, a, b, c, wadd d t1, e, f, g]
  | _ => st

/-- Compression of one block into the running hash. -/
def compressBlock (h : List Nat) (block : List Nat) : List Nat :=
  let w := extendSched block
  let st := (K256.zip w).foldl compressStep h
  List.zipWith wadd h st

/-- SHA-256 digest of a byte list, as eight 32-bit words. -/
def sha256Words (msg : List Nat) : List Nat :=
  let ws := beWords (sha256pad msg)
  (chunk16 (ws.length / 16) ws).foldl compressBlock H256

/-- Lowercase hex character of a value below sixteen. -/
def hexDigitChar (n : Nat) : Char :=
  if n < 10 then Char.ofNat (48 + n) else Char.ofNat (87 + n)

/-- Eight lowercase hex characters of one 32-bit word. -/
def hexWord (w : Nat) : List Char :=
  (List.range 8).map (fun i => hexDigitChar (w / 16 ^ (7 - i) % 16))

/-- Models `hashlib.sha256(bytes).hexdigest()`. -/
def sha256hex (msg : List Nat) : String :=
  String.mk ((sha256Words msg).map hexWord).flatten

/-- UTF-8 bytes of one character. -/
def utf8Char (c : Char) : List Nat :=
  let n := c.toNat
  if n < 128 then [n]
  else if n < 2048 then [192 + n / 64, 128 + n % 64]
  else if n < 65536 then [224 + n / 4096, 128 + n / 64 % 64, 128 + n % 64]
  else [240 + n / 262144, 128 + n / 4096 % 64, 128 + n / 64 % 64, 128 + n % 64]

/-- Models `s.encode(utf8)`. -/
def utf8Bytes (s : String) : List Nat :=
  (s.data.map utf8Char).flatten

/-- Python `str(v)` of a scalar value. -/
def litStr : Lit → String
  | Lit.str s => s
  | Lit.int n => toString n
  | Lit.null => "None"

/-- Models `_c2i(char)` (utils.py lines 85-100): a digit becomes itself with
a zero prefix, a letter becomes its alphabet position from ten upward. -/
def c2i (c : Char) : String :=
  if c.isDigit then "0" ++ String.mk [c]
  else toString (c.toNat - 87)

/-- Models `_hex2int(hstr)` (utils.py lines 103-108). -/
def hex2int (hstr : String) : Nat :=
  digitsToNat (String.join (hstr.data.map c2i)).data

/-- Models `gen_id_for_values(values)` (utils.py lines 111-119): join the
string forms of the values with single spaces, take the SHA-256 hexdigest of
the UTF-8 bytes, and transliterate its first eight characters to a decimal
integer. -/
def gen_id_for_values (values : List Lit) : Nat :=
  hex2int (String.mk ((sha256hex (utf8Bytes
    (String.intercalate " " (values.map litStr)))).data.take 8))

/-- Package dict of one installable unit: name, epoch, version, release,
arch, src values, plus the id assigned during normalization. -/
abbrev PkgDict := List (String × Lit)

/-- Field tuple of `_NEVRA = operator.itemgetter(...)` (create.py line 174). -/
def NEVRA_KEYS : List String := ["name", "epoch", "version", "release", "arch"]

/-- Models `_NEVRA(pkg)`: itemgetter raises KeyError on a missing field. -/
def nevraOf (pkg : PkgDict) : Except Err (List Lit) :=
  NEVRA_KEYS.mapM (fun k => dictIndex pkg k)

/-- Typed view of one entry of the collection children list: the possible
name and package bindings of the child dict. -/
structure CollChild where
  name : Option Lit
  package : Option PkgDict
  deriving DecidableEq, Repr

/-- Typed view of the collection node `update[pkglist][collection]`: the
possible short, children (the at-children key), name and package
bindings. -/
structure PkgColl where
  short : Option PyVal
  children : Option (List CollChild)
  name : Option Lit
  package : Option PkgDict
  deriving Repr

/-- Typed view of the pkglist node: its possible collection binding. -/
structure PkglistNode where
  collection : Option PkgColl
  deriving Repr

/-- Typed view of the raw update dict as `_repo_and_pkgs_from_update` and
`_url_from_update` read it: the raw identifier, the pkglist node and the
references node, each possibly absent. -/
structure RawUpdate where
  id : Option Lit
  pkglist : Option PkglistNode
  references : Option RefsNode
  deriving Repr

/-- Python truthiness of a scalar: None, the empty string and zero are
falsy. -/
def litTruthy : Lit → Bool
  | Lit.str s => s ≠ ""
  | Lit.int n => n ≠ 0
  | Lit.null => false

/-- Python `x or repo` on the `_get_value` result of create.py line 186:
falsy values fall back to the caller-supplied repo id. -/
def orElseRepo (v : Option Lit) (repo : String) : Lit :=
  match v with
  | some l => if litTruthy l then l else Lit.str repo
  | none => Lit.str repo

/-- Models `_get_value(pkc, short-key)` on the typed collection view: an
absent key gives None, otherwise the candidate dispatch of `_get_value`
runs on the bound value. -/
def get_value_short (pkc : PkgColl) : Except Err (Option Lit) :=
  match pkc.short with
  | none => Except.ok none
  | some v => get_value_cand v "short"

/-- String form of `update.get(id-key, Unknown-bang)` interpolated into the
corrupt-update message of create.py line 202. -/
def update_id_str (u : RawUpdate) : String :=
  match u.id with
  | some l => litStr l
  | none => "Unknown!"

/-- Except clause of `_repo_and_pkgs_from_update` (create.py lines 201-203):
KeyError and AttributeError become the corrupt-update ValueError carrying
the update identifier; any other exception escapes unchanged. -/
def wrap_corrupt {α : Type} (u : RawUpdate) (r : Except Err α) : Except Err α :=
  match r with
  | Except.error (Err.keyError _) =>
    Except.error (Err.valueError ("Corrupt update info: " ++ update_id_str u))
  | Except.error Err.attributeError =>
    Except.error (Err.valueError ("Corrupt update info: " ++ update_id_str u))
  | x => x

/-- Id assignment of create.py line 196:
`pkg[id-key] = gen_id_for_values(_NEVRA(pkg))`. -/
def pkg_with_id (pkg : PkgDict) : Except Err PkgDict := do
  let vs ← nevraOf pkg
  Except.ok (dictSet pkg "id" (Lit.int (gen_id_for_values vs)))

/-- Models `_repo_and_pkgs_from_update(update, repo)` (create.py lines
177-203): resolve the collection node, derive the repo id from its short
value or the caller-supplied repo, then read the repo name and the package
list from the children list when the at-children key is present and from
the collection node itself otherwise, and assign every package its derived
id. -/
def repo_and_pkgs_from_update (update : RawUpdate) (repo : String) :
    Except Err (Lit × Lit × List PkgDict) :=
  wrap_corrupt update (do
    let pl ← match update.pkglist with
             | some pl => Except.ok pl
             | none => Except.error (Err.keyError "pkglist")
    let pkc ← match pl.collection with
              | some c => Except.ok c
              | none => Except.error (Err.keyError "collection")
    let sv ← get_value_short pkc
    let rid := orElseRepo sv repo
    let rp ← match pkc.children with
             | some cs =>
               match cs with
               | [] => Except.error Err.indexError
               | c0 :: _ => do
                 let rn ← match c0.name with
                          | some rn => Except.ok rn
                          | none => Except.error (Err.keyError "name")
                 Except.ok (rn, cs.filterMap (fun c => c.package))
             | none => do
               let rn ← match pkc.name with
                        | some rn => Except.ok rn
                        | none => Except.error (Err.keyError "name")
               Except.ok (rn, (match pkc.package with | some p => [p] | none => []))
    let pkgsWithIds ← rp.2.mapM pkg_with_id
    Except.ok (rid, rp.1, pkgsWithIds))

/-- Repo link built on create.py line 293: uid, repo_id, repo_name. -/
structure RepoLink where
  uid : Nat
  repo_id : Lit
  repo_name : Lit
  deriving DecidableEq, Repr

/-- Merged-update record as the repository merger sees it: the derived
integer id, content fields carried through untouched, and the repo links. -/
structure MUpd where
  id : Nat
  advisory : String
  title : String
  description : String
  repos : List RepoLink
  deriving DecidableEq, Repr

/-- Python equality between the repo_id scalar and one element of the repos
list: the elements are repo-link dicts, and in Python a string or other
scalar never compares equal to a dict, so this is always false. -/
def py_eq_scalar_dict (_v : Lit) (_d : RepoLink) : Bool := false

/-- Membership test of create.py line 495,
`urepo[repo-id-key] not in ups[uid][repos-key]` without the negation: the
scalar repo_id value is compared against every repo-link dict of the list,
so no match is ever found. -/
def py_repoid_in_repos (repoId : Lit) (repos : List RepoLink) : Bool :=
  repos.any (fun l => py_eq_scalar_dict repoId l)

/-- Loop of create.py lines 494-496: append each incoming repo link that the
membership test does not find in the growing list. -/
def merge_repos_into (repos : List RepoLink) (urepos : List RepoLink) : List RepoLink :=
  urepos.foldl (fun rs r => if py_repoid_in_repos r.repo_id rs then rs else rs ++ [r]) repos

/-- Python dict insertion keyed by uid: replace in place or append. -/
def ups_set : List (Nat × MUpd) → Nat → MUpd → List (Nat × MUpd)
  | [], k, v => [(k, v)]
  | (k', v') :: rest, k, v =>
    if k' = k then (k, v) :: rest else (k', v') :: ups_set rest k v

/-- Python dict lookup keyed by uid. -/
def ups_find : List (Nat × MUpd) → Nat → Option MUpd
  | [], _ => none
  | (k', v') :: rest, k => if k' = k then some v' else ups_find rest k

/-- Models create.py lines 489-503 for one update of a later repository:
when the uid is present, merge the incoming repo links into the existing
record; otherwise insert the update as-is (the tokenize option is off). -/
def merge_one_update (ups : List (Nat × MUpd)) (upd : MUpd) : List (Nat × MUpd) :=
  match ups_find ups upd.id with
  | some ex => ups_set ups upd.id { ex with repos := merge_repos_into ex.repos upd.repos }
  | none => ups ++ [(upd.id, upd)]

/-- Stable insertion of an update into an id-sorted list, after any element
with the same id. -/
def sorted_insert_by_id (u : MUpd) : List MUpd → List MUpd
  | [] => [u]
  | v :: vs => if v.id ≤ u.id then v :: sorted_insert_by_id u vs else u :: v :: vs

/-- Python `sorted(xs, key by id)`: a stable ascending sort. -/
def sorted_by_id (xs : List MUpd) : List MUpd :=
  xs.foldl (fun acc u => sorted_insert_by_id u acc) []

/-- Models `_load_and_merge_repos_data` (create.py lines 473-507) over the
per-repository normalized update lists (the in-memory outputs of
convert_uixmlgz; loading and file-saving are I/O around this fold): seed the
uid-keyed table from the first repository, merge every later repository
update-by-update, and return the table values sorted by id. -/
def load_and_merge_repos_data (repoUps : List (List MUpd)) : List MUpd :=
  match repoUps with
  | [] => []
  | first :: rest =>
    let ups0 := first.foldl (fun d u => ups_set d u.id u) []
    let ups1 := rest.foldl (fun d l => l.foldl merge_one_update d) ups0
    sorted_by_id (ups1.map Prod.snd)

/-- Row of the relational store: column name to scalar value. -/
abbrev SRow := List (String × Lit)

/-- Store content: list of (table, row) pairs in insertion order. -/
abbrev Store := List (String × SRow)

/-- Operation executed against the store: one row insert (INSERT OR IGNORE)
or one commit. -/
inductive DbOp where
  | ins : String → SRow → DbOp
  | commit : DbOp
  deriving DecidableEq, Repr

/-- Primary keys declared by `_create_tables` (create.py lines 345-372): an
integer id for packages and updates, a text id for refs; the three join
tables declare none. -/
def tblPkey : String → Option String
  | "packages" => some "id"
  | "refs" => some "id"
  | "updates" => some "id"
  | _ => none

/-- Value of one column of a stored row. -/
def rowGet (row : SRow) (k : String) : Option Lit := dictGet row k

/-- Insert-or-ignore semantics of the generated statements: on a table with
a declared primary key, a row whose non-NULL key value is already present in
that table is skipped; otherwise the row is appended.  A NULL or absent key
value never matches an existing row (store NULL semantics), so such rows are
always inserted. -/
def insert_or_ignore (store : Store) (tbl : String) (row : SRow) : Store :=
  match tblPkey tbl with
  | some pk =>
    match rowGet row pk with
    | some v =>
      if v ≠ Lit.null ∧ store.any (fun tr => tr.1 = tbl ∧ rowGet tr.2 pk = some v) then
        store
      else store ++ [(tbl, row)]
    | none => store ++ [(tbl, row)]
  | none => store ++ [(tbl, row)]

/-- Connection state: the last committed store and the current store. -/
structure DbState where
  committed : Store
  current : Store
  deriving DecidableEq, Repr

/-- Effect of one operation on the connection state. -/
def applyOp (st : DbState) : DbOp → DbState
  | DbOp.ins tbl row => { st with current := insert_or_ignore st.current tbl row }
  | DbOp.commit => { committed := st.current, current := st.current }

/-- Effect of an operation sequence. -/
def applyOps (st : DbState) (ops : List DbOp) : DbState := ops.foldl applyOp st

/-- Store visible in the database file when the run dies after executing
only the first k operations: everything up to the last executed commit. -/
def visible_after (ops : List DbOp) (k : Nat) : Store :=
  (applyOps { committed := [], current := [] } (ops.take k)).committed

/-- Row effect of an operation sequence, ignoring commits. -/
def applyRow (store : Store) : DbOp → Store
  | DbOp.ins tbl row => insert_or_ignore store tbl row
  | DbOp.commit => store

/-- Fold of `applyRow`. -/
def applyRows (store : Store) (ops : List DbOp) : Store := ops.foldl applyRow store

/-- Rows of one table, in insertion order. -/
def rowsOf (store : Store) (tbl : String) : List SRow :=
  (store.filter (fun tr => tr.1 = tbl)).map Prod.snd

/-- Row built by `_insert_values` (create.py lines 375-393): the None values
and their columns are dropped (both statement shapes bind only the non-None
values, and a full positional insert lands in the same columns). -/
def insert_values_row (keys : List String) (vals : List (Option Lit)) : SRow :=
  (keys.zip vals).filterMap
    (fun kv => match kv.2 with | some v => some (kv.1, v) | none => none)

/-- Update-dict (and nested item) representation used by the persister. -/
abbrev PyDict := List (String × PyVal)

/-- Scalar check done at statement binding: nested containers cannot be
bound as statement parameters. -/
def pyvalScalar : PyVal → Except Err (Option Lit)
  | PyVal.str s => Except.ok (some (Lit.str s))
  | PyVal.int n => Except.ok (some (Lit.int n))
  | PyVal.null => Except.ok none
  | _ => Except.error Err.interfaceError

/-- Column keys of create.py lines 337-342. -/
def PKG_KEYS : List String := ["id", "name", "version", "release", "epoch", "arch", "src"]

/-- Reference column keys. -/
def REF_KEYS : List String := ["id", "title", "type", "href"]

/-- Update column keys. -/
def UPD_KEYS : List String :=
  ["id", "type", "title", "summary", "description", "solution", "issued",
   "updated", "release", "severity", "url", "reboot_suggested"]

/-- Per-item operations of the loop of `_insert_list_values_with_rels`
(create.py lines 403-406): each item must be a dict; its values for the
given keys make one row for the item table, followed by one relation row
(data id, item id). -/
def ins_items_ops (data : PyDict) (tbl : String) (keys : List String)
    (relTbl : String) (relKeys : List String) : List PyVal → Except Err (List DbOp)
  | [] => Except.ok []
  | item :: rest => do
    match item with
    | PyVal.dict d => do
      let vals ← keys.mapM (fun k => dictIndex d k)
      let svals ← vals.mapM pyvalScalar
      let dataId ← dictIndex data "id"
      let itemId ← dictIndex d "id"
      let sDataId ← pyvalScalar dataId
      let sItemId ← pyvalScalar itemId
      let restOps ← ins_items_ops data tbl keys relTbl relKeys rest
      Except.ok (DbOp.ins tbl (insert_values_row keys svals)
        :: DbOp.ins relTbl (insert_values_row relKeys [sDataId, sItemId]) :: restOps)
    | _ => Except.error Err.typeError

/-- Models `_insert_list_values_with_rels` (create.py lines 396-406): iterate
`data.get(items_key, [])` (a non-empty non-list value fails at the first
item use; an empty dict iterates nothing) over the per-item operations. -/
def ins_list_values_with_rels (data : PyDict) (items_key tbl : String)
    (keys : List String) (relTbl : String) (relKeys : List String) :
    Except Err (List DbOp) := do
  let itemsVal := match dictGet data items_key with
                  | some v => v
                  | none => PyVal.list []
  let items ← match itemsVal with
              | PyVal.list xs => Except.ok xs
              | PyVal.dict [] => Except.ok []
              | _ => Except.error Err.typeError
  ins_items_ops data tbl keys relTbl relKeys items

/-- Per-link operations of create.py lines 437-439.  The key tuple handed to
`_insert_values` is (id, repo_id, repo_name) although the actual columns are
(uid, repo_id, repo_name): with no None among the values the insert is
positional and lands in the three actual columns; with a None value and a
non-None uid the generated statement names the nonexistent column id and the
store rejects it; with a None uid the named columns that remain do exist. -/
def repo_links_ops (upd : PyDict) : List PyVal → Except Err (List DbOp)
  | [] => Except.ok []
  | r :: rest => do
    match r with
    | PyVal.dict d => do
      let uidV ← dictIndex upd "id"
      let ridV ← dictIndex d "repo_id"
      let rnameV ← dictIndex d "repo_name"
      let sUid ← pyvalScalar uidV
      let sRid ← pyvalScalar ridV
      let sRname ← pyvalScalar rnameV
      let restOps ← repo_links_ops upd rest
      if sUid.isSome ∧ sRid.isSome ∧ sRname.isSome then
        Except.ok (DbOp.ins "update_repos"
          (insert_values_row ["uid", "repo_id", "repo_name"] [sUid, sRid, sRname]) :: restOps)
      else if sUid.isSome then
        Except.error (Err.valueError "no such column: id")
      else
        Except.ok (DbOp.ins "update_repos"
          (insert_values_row ["repo_id", "repo_name"] [sRid, sRname]) :: restOps)
    | _ => Except.error Err.typeError

/-- Models create.py lines 436-439: one update_repos row per repo link of
`upd.get(repos-key, [])`. -/
def repos_ops (upd : PyDict) : Except Err (List DbOp) := do
  let reposVal := match dictGet upd "repos" with
                  | some v => v
                  | none => PyVal.list []
  let repos ← match reposVal with
              | PyVal.list xs => Except.ok xs
              | PyVal.dict [] => Except.ok []
              | _ => Except.error Err.typeError
  repo_links_ops upd repos

/-- Per-update body of `save_uidata_to_sqlite` (create.py lines 421-439):
the updates row, the package rows with their joins, a commit, the reference
rows with their joins, a commit, then the repo-link rows (committed only
later). -/
def upd_ops (upd : PyDict) : Except Err (List DbOp) := do
  let uvals ← UPD_KEYS.mapM (fun k => get_value (PyVal.dict upd) k)
  let o2 ← ins_list_values_with_rels upd "pkglist" "packages" PKG_KEYS
             "update_packages" ["uid", "pid"]
  let o3 ← ins_list_values_with_rels upd "references" "refs" REF_KEYS
             "update_refs" ["uid", "rid"]
  let o4 ← repos_ops upd
  Except.ok (DbOp.ins "updates" (insert_values_row UPD_KEYS uvals)
             :: (o2 ++ DbOp.commit :: (o3 ++ DbOp.commit :: o4)))

/-- Concatenated per-update operations of the loop of create.py line 421. -/
def upds_ops : List PyDict → Except Err (List DbOp)
  | [] => Except.ok []
  | u :: rest => do
    let o ← upd_ops u
    let os ← upds_ops rest
    Except.ok (o ++ os)

/-- Operation trace of `save_uidata_to_sqlite(updates, outdir)` (create.py
lines 409-443): the two commits of the idempotent schema creation, the
per-update operations, and the final commit of line 441. -/
def save_uidata_ops (upds : List PyDict) : Except Err (List DbOp) := do
  let os ← upds_ops upds
  Except.ok (DbOp.commit :: DbOp.commit :: (os ++ [DbOp.commit]))

/-- Models a full failure-free run of `save_uidata_to_sqlite` against a
connection state. -/
def save_uidata_to_sqlite (st : DbState) (upds : List PyDict) : Except Err DbState := do
  let ops ← save_uidata_ops upds
  Except.ok (applyOps st ops)

/-- Whether an insert into a table with a declared primary key carries a
non-NULL key value (commits and keyless-table inserts pass trivially). -/
def pk_row_ok (op : DbOp) : Bool :=
  match op with
  | DbOp.ins tbl row =>
    match tblPkey tbl with
    | some pk =>
      match rowGet row pk with
      | some v => v ≠ Lit.null
      | none => false
    | none => true
  | DbOp.commit => true

/-- All inserts of the trace carry usable primary keys. -/
def pk_ins_nonnull (ops : List DbOp) : Bool := ops.all pk_row_ok

/-- Whether a row with the given non-NULL primary-key value exists in the
table. -/
def pkPresent (s : Store) (tbl : String) (v : Lit) : Bool :=
  s.any (fun tr => tr.1 = tbl ∧ rowGet tr.2 "id" = some v)

/-- One row per distinct primary key: the rows of the table have pairwise
distinct id values. -/
def pk_distinct (s : Store) (tbl : String) : Prop :=
  (rowsOf s tbl).Pairwise (fun r1 r2 => rowGet r1 "id" ≠ rowGet r2 "id")

/-- Concrete one-advisory input of the persister: one package, one cve
reference, one repo link. -/
def c4_input : PyDict :=
  [("id", PyVal.int 1), ("title", PyVal.str "T"),
   ("pkglist", PyVal.list [PyVal.dict
     [("id", PyVal.int 77), ("name", PyVal.str "kernel"),
      ("version", PyVal.str "3.10.0"), ("release", PyVal.str "123.el7"),
      ("epoch", PyVal.int 0), ("arch", PyVal.str "x86_64"),
      ("src", PyVal.str "kernel.src.rpm")]]),
   ("references", PyVal.list [PyVal.dict
     [("id", PyVal.str "CVE-2016-1"), ("title", PyVal.str "cve title"),
      ("type", PyVal.str "cve"), ("href", PyVal.str "http://cve.example/1")]]),
   ("repos", PyVal.list [PyVal.dict
     [("repo_id", PyVal.str "alpha"), ("repo_name", PyVal.str "Alpha")]])]

/-- Operation trace the persister executes for `c4_input`. -/
def c4_trace : List DbOp :=
  [DbOp.commit, DbOp.commit,
   DbOp.ins "updates" [("id", Lit.int 1), ("title", Lit.str "T")],
   DbOp.ins "packages"
     [("id", Lit.int 77), ("name", Lit.str "kernel"),
      ("version", Lit.str "3.10.0"), ("release", Lit.str "123.el7"),
      ("epoch", Lit.int 0), ("arch", Lit.str "x86_64"),
      ("src", Lit.str "kernel.src.rpm")],
   DbOp.ins "update_packages" [("uid", Lit.int 1), ("pid", Lit.int 77)],
   DbOp.commit,
   DbOp.ins "refs"
     [("id", Lit.str "CVE-2016-1"), ("title", Lit.str "cve title"),
      ("type", Lit.str "cve"), ("href", Lit.str "http://cve.example/1")],
   DbOp.ins "update_refs" [("uid", Lit.int 1), ("rid", Lit.str "CVE-2016-1")],
   DbOp.commit,
   DbOp.ins "update_repos"
     [("uid", Lit.int 1), ("repo_id", Lit.str "alpha"), ("repo_name", Lit.str "Alpha")],
   DbOp.commit]

/-- Character list of an advisory code of shape PREFIX dash year colon
sequence. -/
def render_adv_code (pfx : String) (year seq : List Char) : List Char :=
  pfx.data ++ '-' :: year ++ ':' :: seq

/-- Well-formed advisory code: a known prefix, a four-digit year and a
non-empty digit sequence. -/
def WfAdvCode (pfx : String) (year seq : List Char) : Prop :=
  (pfx = "RHSA" ∨ pfx = "RHBA" ∨ pfx = "RHEA") ∧
  year.length = 4 ∧ year.all Char.isDigit = true ∧
  seq ≠ [] ∧ seq.all Char.isDigit = true

/-- Decimal character the category code of a known prefix renders to inside
the derived id. -/
def tid_char (pfx : String) : Char :=
  if pfx = "RHSA" then '0' else if pfx = "RHBA" then '1'
  else if pfx = "RHEA" then '2' else '3'

section DictLemmas

theorem dictGet_dictSet_same {α : Type} (d : List (String × α)) (k : String) (v : α) :
    dictGet (dictSet d k v) k = some v := by
  induction d with
  | nil => simp [dictGet, dictSet]
  | cons kv rest ih =>
    by_cases h : kv.1 = k
    · simp [dictSet, h, dictGet]
    · simp [dictSet, h, dictGet, ih]

theorem dictGet_dictSet_ne {α : Type} (d : List (String × α)) (k k' : String) (v : α)
    (h : k' ≠ k) : dictGet (dictSet d k v) k' = dictGet d k' := by
  induction d with
  | nil => simp [dictGet, dictSet, Ne.symm h]
  | cons kv rest ih =>
    by_cases hk : kv.1 = k
    · have h2 : kv.1 ≠ k' := hk ▸ Ne.symm h
      simp [dictSet, hk, dictGet, h2, Ne.symm h]
    · simp [dictSet, hk, dictGet, ih]

end DictLemmas

/-- C1.  The merge of create.py lines 488-503 is claimed to union repo links
deduplicated by repo_id.  The membership test of line 495 compares the
repo_id scalar against the repo-link dicts of the existing list, a
comparison that is false for every element, so a link whose repo_id is
already present is appended again: merging two repositories that both carry
advisory RHSA-2016:2872 under the same repo_id alpha yields one advisory
whose repo-link list holds the alpha link twice (while the content fields do
come from the first repository). -/
theorem c1_duplicate_repoid_appended :
    load_and_merge_repos_data
      [[⟨1000201628720, "RHSA-2016:2872", "title A", "desc A",
         [⟨1000201628720, Lit.str "alpha", Lit.str "name A"⟩]⟩],
       [⟨1000201628720, "RHSA-2016:2872", "title B", "desc B",
         [⟨1000201628720, Lit.str "alpha", Lit.str "name B"⟩]⟩]]
    = [⟨1000201628720, "RHSA-2016:2872", "title A", "desc A",
        [⟨1000201628720, Lit.str "alpha", Lit.str "name A"⟩,
         ⟨1000201628720, Lit.str "alpha", Lit.str "name B"⟩]⟩] := by decide

/-- C3.  Normalization is claimed to attach the category security, bug or
enhancement derived from the advisory-code prefix.  The code instead (a)
builds the default type map from undefined bare names, so resolving it
raises NameError, and (b) at the call site passes the already-replaced
integer id, so even under the evidently intended map the call raises
AttributeError instead of returning the category; with a string argument
and the intended map the lookup would give security as claimed. -/
theorem c3_category_derivation_raises :
    derive_id_and_type "RHSA-2016:2872" = Except.error (Err.nameError "RHSA") ∧
    type_from_update (StrOrInt.int 1000201628720) (some INTENDED_UTYPE_TYPE_MAP)
      = Except.error Err.attributeError ∧
    type_from_update (StrOrInt.str "RHSA-2016:2872") (some INTENDED_UTYPE_TYPE_MAP)
      = Except.ok "security" := by decide

/-- C7.  The informational URL extraction is claimed to return the first
element's href when the references node is a list.  The list branch of
`_url_from_update` looks up the key written with a leading space, which the
reference dict never contains, so the extraction returns None although the
first element does carry an href (the single-object branch and the
other-shape ValueError behave as claimed). -/
theorem c7_list_branch_returns_none :
    url_from_update (some (RefsNode.list [[("reference",
      [("href", Lit.str "http://access.redhat.com/errata/RHSA-2016:2872.html"),
       ("type", Lit.str "self")])]])) = Except.ok none ∧
    dictGet [("href", Lit.str "http://access.redhat.com/errata/RHSA-2016:2872.html"),
             ("type", Lit.str "self")] "href"
      = some (Lit.str "http://access.redhat.com/errata/RHSA-2016:2872.html") ∧
    url_from_update (some (RefsNode.dict [("reference",
      [("href", Lit.str "http://access.redhat.com/errata/RHSA-2016:2872.html")])]))
      = Except.ok (some (Lit.str "http://access.redhat.com/errata/RHSA-2016:2872.html")) ∧
    url_from_update (some RefsNode.other) = Except.error (Err.valueError "refs") := by decide

/-- C10.  When the references node of a raw advisory is a single mapping
object rather than a list (or any other non-list shape), the
reference-classification iterator yields nothing, so the normalized
reference list and its cve and bugzilla partitions are all empty, whatever
the single reference contained. -/
theorem c10_nonlist_references_dropped (r : List (String × RefDict)) :
    classify_references (some (RefsNode.dict r)) = Except.ok ([], [], []) ∧
    classify_references (some RefsNode.other) = Except.ok ([], [], []) ∧
    classify_references none = Except.ok ([], [], []) :=
  ⟨rfl, rfl, rfl⟩

/-- C8.  Normalizing an advisory whose package-list collection exposes a
single package object directly yields exactly the same repo id, repo name
and package list (ids included) as normalizing the advisory whose
collection exposes one child holding the same name and package. -/
theorem c8_single_object_equals_singleton_list
    (idv : Option Lit) (refs : Option RefsNode) (sh : Option PyVal)
    (n : Lit) (p : PkgDict) (nm : Option Lit) (pk : Option PkgDict) (repo : String) :
    repo_and_pkgs_from_update
      { id := idv,
        pkglist :=
          some { collection :=
                   some { short := sh, children := none,
                          name := some n, package := some p } },
        references := refs } repo
    = repo_and_pkgs_from_update
      { id := idv,
        pkglist :=
          some { collection :=
                   some { short := sh,
                          children := some [{ name := some n, package := some p }],
                          name := nm, package := pk } },
        references := refs } repo := rfl

/-- C9 counterexample.  A raw advisory with no references node is claimed to
raise the corrupt-advisory condition carrying its identifier; the code
instead raises a bare KeyError from the indexing of create.py line 228.
Also, the fallback identifier in the corrupt message is the string Unknown
with an exclamation mark, not the claimed Unknown. -/
theorem c9_missing_references_keyerror :
    url_from_update none = Except.error (Err.keyError "references") ∧
    url_from_update none
      ≠ Except.error (Err.valueError "Corrupt update info: RHSA-2016:2872") ∧
    repo_and_pkgs_from_update { id := none, pkglist := none, references := none } "repo1"
      = Except.error (Err.valueError "Corrupt update info: Unknown!") := by decide

/-- C9 amended.  A missing package-list node raises the corrupt-update
ValueError carrying the update identifier string (or Unknown with an
exclamation mark when the identifier is absent), while a missing references
node raises a plain KeyError that carries no identifier. -/
theorem c9_missing_node_errors (u : RawUpdate) (repo : String) :
    (u.pkglist = none →
      repo_and_pkgs_from_update u repo
        = Except.error (Err.valueError ("Corrupt update info: " ++ update_id_str u))) ∧
    (u.references = none →
      url_from_update u.references = Except.error (Err.keyError "references")) := by
  constructor
  · intro h
    obtain ⟨uid, upl, urefs⟩ := u
    simp only at h
    subst h
    rfl
  · intro h
    rw [h]
    rfl

/-- Closed instance of the two implications of `c9_missing_node_errors`. -/
theorem c9_missing_node_errors_witness :
    repo_and_pkgs_from_update
      { id := some (Lit.str "RHSA-2016:2872"), pkglist := none, references := none } "repo1"
      = Except.error (Err.valueError "Corrupt update info: RHSA-2016:2872") ∧
    url_from_update none = Except.error (Err.keyError "references") :=
  ⟨(c9_missing_node_errors
      { id := some (Lit.str "RHSA-2016:2872"), pkglist := none, references := none } "repo1").1 rfl,
   (c9_missing_node_errors
      { id := some (Lit.str "RHSA-2016:2872"), pkglist := none, references := none } "repo1").2 rfl⟩

/-- C4 counterexample.  Each advisory is claimed to be written in one
transaction committed before the next advisory begins, so that a failure
while inserting its packages or references never leaves a half-written
advisory visible.  In the executed trace for one advisory the commit of
create.py line 429 precedes the reference inserts: when the run dies at the
refs insert (operation index six), the advisory row and its package and
join rows are already committed and visible while no reference row is. -/
theorem c4_commit_splits_advisory :
    save_uidata_ops [c4_input] = Except.ok c4_trace ∧
    c4_trace.get? 6 = some (DbOp.ins "refs"
      [("id", Lit.str "CVE-2016-1"), ("title", Lit.str "cve title"),
       ("type", Lit.str "cve"), ("href", Lit.str "http://cve.example/1")]) ∧
    rowsOf (visible_after c4_trace 6) "updates"
      = [[("id", Lit.int 1), ("title", Lit.str "T")]] ∧
    rowsOf (visible_after c4_trace 6) "packages"
      = [[("id", Lit.int 77), ("name", Lit.str "kernel"),
          ("version", Lit.str "3.10.0"), ("release", Lit.str "123.el7"),
          ("epoch", Lit.int 0), ("arch", Lit.str "x86_64"),
          ("src", Lit.str "kernel.src.rpm")]] ∧
    rowsOf (visible_after c4_trace 6) "refs" = [] := by decide

section RefLemmas

theorem except_bind_ok {e a b : Type} (x : a) (f : a → Except e b) :
    (Except.ok x >>= f) = f x := rfl

theorem except_bind_error {e a b : Type} (err : e) (f : a → Except e b) :
    ((Except.error err : Except e a) >>= f) = Except.error err := rfl

theorem process_one_ref_survivor (ref r : RefDict)
    (h : process_one_ref ref = Except.ok (some r)) :
    refValEq r "type" "self" = false ∧ refValEq r "id" "classification" = false := by
  unfold process_one_ref at h
  by_cases h1 : ((dictGet ref "id").isNone || (dictGet ref "type").isNone) = true
  · rw [if_pos h1] at h
    exact absurd (Except.ok.inj h) (by simp)
  · rw [if_neg h1] at h
    by_cases h2 : (refValEq ref "type" "self" || refValEq ref "id" "classification") = true
    · rw [if_pos h2] at h
      exact absurd (Except.ok.inj h) (by simp)
    · rw [if_neg h2] at h
      simp only [Bool.or_eq_true, not_or, Bool.not_eq_true] at h2
      by_cases h3 : refValEq ref "type" "other" = true
      · rw [if_pos h3] at h
        cases hh : dictGet ref "href" with
        | none =>
          simp only [dictIndex, hh, except_bind_error] at h
          exact absurd h (by simp)
        | some hv =>
          simp only [dictIndex, hh, except_bind_ok] at h
          cases hv with
          | str s =>
            cases hm : eurlMatch s with
            | none =>
              simp only [hm] at h
              have hr : r = ref := (Option.some.inj (Except.ok.inj h)).symm
              subst hr
              exact ⟨h2.1, h2.2⟩
            | some adv =>
              simp only [hm] at h
              cases hn : int_from_update adv with
              | error e =>
                simp only [hn, except_bind_error] at h
                exact absurd h (by simp)
              | ok n =>
                simp only [hn, except_bind_ok] at h
                have hr : r = dictSet (dictSet (dictSet ref "type" (Lit.str "errata"))
                    "title" (Lit.str adv)) "id" (Lit.int n) :=
                  (Option.some.inj (Except.ok.inj h)).symm
                subst hr
                constructor
                · have e1 : dictGet (dictSet (dictSet (dictSet ref "type" (Lit.str "errata"))
                      "title" (Lit.str adv)) "id" (Lit.int n)) "type"
                      = some (Lit.str "errata") := by
                    rw [dictGet_dictSet_ne _ _ _ _ (by decide),
                        dictGet_dictSet_ne _ _ _ _ (by decide),
                        dictGet_dictSet_same]
                  simp [refValEq, e1, litEqStr]
                · have e2 : dictGet (dictSet (dictSet (dictSet ref "type" (Lit.str "errata"))
                      "title" (Lit.str adv)) "id" (Lit.int n)) "id"
                      = some (Lit.int n) := dictGet_dictSet_same _ _ _
                  simp [refValEq, e2, litEqStr]
          | int n => exact absurd h (by simp)
          | null => exact absurd h (by simp)
      · rw [if_neg h3] at h
        have hr : r = ref := (Option.some.inj (Except.ok.inj h)).symm
        subst hr
        exact ⟨h2.1, h2.2⟩

theorem process_ref_wrappers_survivor (ws : List (List (String × RefDict)))
    (out : List RefDict) (h : process_ref_wrappers ws = Except.ok out)
    (r : RefDict) (hr : r ∈ out) :
    refValEq r "type" "self" = false ∧ refValEq r "id" "classification" = false := by
  induction ws generalizing out with
  | nil =>
    unfold process_ref_wrappers at h
    cases Except.ok.inj h
    cases hr
  | cons w ws ih =>
    unfold process_ref_wrappers at h
    cases hw : dictIndex w "reference" with
    | error e => rw [hw, except_bind_error] at h; exact absurd h (by simp)
    | ok ref =>
      rw [hw, except_bind_ok] at h
      cases ho : process_one_ref ref with
      | error e => rw [ho, except_bind_error] at h; exact absurd h (by simp)
      | ok o =>
        rw [ho, except_bind_ok] at h
        cases hrest : process_ref_wrappers ws with
        | error e => rw [hrest, except_bind_error] at h; exact absurd h (by simp)
        | ok rest =>
          rw [hrest, except_bind_ok] at h
          have hout := Except.ok.inj h
          cases o with
          | none =>
            subst hout
            exact ih rest hrest hr
          | some r0 =>
            subst hout
            cases hr with
            | head => exact process_one_ref_survivor ref r ho
            | tail _ hmem => exact ih rest hrest hmem

end RefLemmas

/-- C6 counterexample.  A reference of type other whose href matches the
errata URL pattern is claimed to be reclassified with the extracted code and
its derived id.  The wildcard in the pattern can match a dash: this href
matches the pattern with capture RH-A-2016:123, but deriving the id then
fails tuple unpacking, so processing the reference raises ValueError instead
of reclassifying it. -/
theorem c6_wildcard_dash_raises :
    eurlMatch "http://access.redhat.com/errata/RH-A-2016:123.html" = some "RH-A-2016:123" ∧
    process_one_ref
      [("id", Lit.str "x"), ("type", Lit.str "other"),
       ("href", Lit.str "http://access.redhat.com/errata/RH-A-2016:123.html")]
      = Except.error (Err.valueError "unpack") := by decide

/-- C6 amended.  A reference of declared type other (with an id present and
not the classification literal) whose href matches the errata URL pattern is
reclassified to type errata with its title replaced by the extracted
advisory code and its id replaced by the derived integer id, provided that
derivation succeeds (it fails only when the pattern wildcard matched a
dash); and no reference whose type value is self, nor one whose id value is
the literal classification, survives normalization. -/
theorem c6_reclassification_and_filtering :
    (∀ (ref : RefDict) (h adv : String) (n : Nat),
      (dictGet ref "id").isSome = true →
      dictGet ref "type" = some (Lit.str "other") →
      refValEq ref "id" "classification" = false →
      dictGet ref "href" = some (Lit.str h) →
      eurlMatch h = some adv →
      int_from_update adv = Except.ok n →
      process_one_ref ref = Except.ok (some (dictSet (dictSet (dictSet ref "type"
        (Lit.str "errata")) "title" (Lit.str adv)) "id" (Lit.int n)))) ∧
    (∀ (refs : Option RefsNode) (out : List RefDict),
      process_refs_itr refs = Except.ok out →
      ∀ r, r ∈ out →
        refValEq r "type" "self" = false ∧ refValEq r "id" "classification" = false) := by
  constructor
  · intro ref h adv n hid hty hidnc hhref hm hn
    unfold process_one_ref
    have c1 : ((dictGet ref "id").isNone || (dictGet ref "type").isNone) = false := by
      rw [hty]
      cases hg : dictGet ref "id" with
      | none => rw [hg] at hid; cases hid
      | some v => simp
    rw [if_neg (by simp [c1])]
    have c2 : (refValEq ref "type" "self" || refValEq ref "id" "classification") = false := by
      rw [Bool.or_eq_false_iff]
      refine ⟨?_, hidnc⟩
      simp [refValEq, hty, litEqStr]
    rw [if_neg (by simp [c2])]
    have c3 : refValEq ref "type" "other" = true := by
      simp [refValEq, hty, litEqStr]
    rw [if_pos c3]
    simp only [dictIndex, hhref, except_bind_ok, hm, hn]
  · intro refs out h r hr
    cases refs with
    | none =>
      unfold process_refs_itr at h
      cases Except.ok.inj h
      cases hr
    | some node =>
      cases node with
      | dict d =>
        unfold process_refs_itr at h
        cases Except.ok.inj h
        cases hr
      | other =>
        unfold process_refs_itr at h
        cases Except.ok.inj h
        cases hr
      | list ws =>
        cases ws with
        | nil =>
          unfold process_refs_itr at h
          cases Except.ok.inj h
          cases hr
        | cons w ws =>
          unfold process_refs_itr at h
          exact process_ref_wrappers_survivor (w :: ws) out h r hr

/-- Closed instance of both parts of `c6_reclassification_and_filtering`. -/
theorem c6_reclassification_and_filtering_witness :
    process_one_ref
      [("id", Lit.str "x"), ("type", Lit.str "other"), ("title", Lit.str "t"),
       ("href", Lit.str "http://access.redhat.com/errata/RHSA-2016:2872.html")]
      = Except.ok (some (dictSet (dictSet (dictSet
          [("id", Lit.str "x"), ("type", Lit.str "other"), ("title", Lit.str "t"),
           ("href", Lit.str "http://access.redhat.com/errata/RHSA-2016:2872.html")]
          "type" (Lit.str "errata")) "title" (Lit.str "RHSA-2016:2872"))
          "id" (Lit.int 1000201628720))) ∧
    (refValEq
       [("id", Lit.int 1000201628720), ("type", Lit.str "errata"),
        ("title", Lit.str "RHSA-2016:2872"),
        ("href", Lit.str "http://access.redhat.com/errata/RHSA-2016:2872.html")]
       "type" "self" = false ∧
     refValEq
       [("id", Lit.int 1000201628720), ("type", Lit.str "errata"),
        ("title", Lit.str "RHSA-2016:2872"),
        ("href", Lit.str "http://access.redhat.com/errata/RHSA-2016:2872.html")]
       "id" "classification" = false) :=
  ⟨c6_reclassification_and_filtering.1
      [("id", Lit.str "x"), ("type", Lit.str "other"), ("title", Lit.str "t"),
       ("href", Lit.str "http://access.redhat.com/errata/RHSA-2016:2872.html")]
      "http://access.redhat.com/errata/RHSA-2016:2872.html" "RHSA-2016:2872" 1000201628720
      (by decide) (by decide) (by decide) (by decide) (by decide) (by decide),
   c6_reclassification_and_filtering.2
      (some (RefsNode.list [[("reference",
        [("id", Lit.str "x"), ("type", Lit.str "other"), ("title", Lit.str "t"),
         ("href", Lit.str "http://access.redhat.com/errata/RHSA-2016:2872.html")])]]))
      [[("id", Lit.int 1000201628720), ("type", Lit.str "errata"),
        ("title", Lit.str "RHSA-2016:2872"),
        ("href", Lit.str "http://access.redhat.com/errata/RHSA-2016:2872.html")]]
      (by decide)
      [("id", Lit.int 1000201628720), ("type", Lit.str "errata"),
       ("title", Lit.str "RHSA-2016:2872"),
       ("href", Lit.str "http://access.redhat.com/errata/RHSA-2016:2872.html")]
      (List.mem_singleton.mpr rfl)⟩

section NumLemmas

theorem foldl_digits_acc (cs : List Char) (a : Nat) :
    cs.foldl (fun x c => x * 10 + (c.toNat - 48)) a
      = a * 10 ^ cs.length + cs.foldl (fun x c => x * 10 + (c.toNat - 48)) 0 := by
  induction cs generalizing a with
  | nil => simp
  | cons c cs ih =>
    simp only [List.foldl_cons, List.length_cons]
    rw [ih (a * 10 + (c.toNat - 48)), ih (0 * 10 + (c.toNat - 48))]
    ring

theorem digitsToNat_cons (c : Char) (cs : List Char) :
    digitsToNat (c :: cs) = (c.toNat - 48) * 10 ^ cs.length + digitsToNat cs := by
  unfold digitsToNat
  simp only [List.foldl_cons]
  rw [foldl_digits_acc]
  ring

theorem digitsToNat_append (a b : List Char) :
    digitsToNat (a ++ b) = digitsToNat a * 10 ^ b.length + digitsToNat b := by
  unfold digitsToNat
  rw [List.foldl_append]
  exact foldl_digits_acc b _

theorem char_digit_bounds (c : Char) (h : c.isDigit = true) :
    48 ≤ c.toNat ∧ c.toNat ≤ 57 := by
  simp only [Char.isDigit, Bool.and_eq_true, decide_eq_true_eq, Char.le_def] at h
  exact h

theorem digitsToNat_lt (cs : List Char) (h : cs.all Char.isDigit = true) :
    digitsToNat cs < 10 ^ cs.length := by
  induction cs with
  | nil => simp [digitsToNat]
  | cons c cs ih =>
    simp only [List.all_cons, Bool.and_eq_true] at h
    have hd := char_digit_bounds c h.1
    have hlt := ih h.2
    rw [digitsToNat_cons]
    simp only [List.length_cons]
    calc (c.toNat - 48) * 10 ^ cs.length + digitsToNat cs
        < (c.toNat - 48) * 10 ^ cs.length + 10 ^ cs.length := by omega
      _ = (c.toNat - 48 + 1) * 10 ^ cs.length := by ring
      _ ≤ 10 * 10 ^ cs.length := Nat.mul_le_mul_right _ (by omega)
      _ = 10 ^ (cs.length + 1) := by ring

theorem nat_block_inj (A B v1 v2 K : Nat) (hK : 0 < K) (h1 : v1 < K) (h2 : v2 < K)
    (h : A * K + v1 = B * K + v2) : A = B ∧ v1 = v2 := by
  have hA : (A * K + v1) / K = A := by
    rw [Nat.mul_comm, Nat.mul_add_div hK, Nat.div_eq_of_lt h1, Nat.add_zero]
  have hB : (B * K + v2) / K = B := by
    rw [Nat.mul_comm, Nat.mul_add_div hK, Nat.div_eq_of_lt h2, Nat.add_zero]
  have hAB : A = B := by rw [← hA, ← hB, h]
  subst hAB
  exact ⟨rfl, by omega⟩

theorem char_of_toNat_eq (c d : Char) (h : c.toNat = d.toNat) : c = d :=
  Char.ofNat_toNat c ▸ Char.ofNat_toNat d ▸ congrArg Char.ofNat h

theorem digits_inj_of_length (a : List Char) :
    ∀ (b : List Char), a.all Char.isDigit = true → b.all Char.isDigit = true →
      a.length = b.length → digitsToNat a = digitsToNat b → a = b := by
  induction a with
  | nil =>
    intro b _ _ hlen _
    cases b with
    | nil => rfl
    | cons d ds => simp at hlen
  | cons c cs ih =>
    intro b ha hb hlen hval
    cases b with
    | nil => simp at hlen
    | cons d ds =>
      simp only [List.length_cons] at hlen
      have hlen2 : cs.length = ds.length := by omega
      simp only [List.all_cons, Bool.and_eq_true] at ha hb
      rw [digitsToNat_cons, digitsToNat_cons, hlen2] at hval
      have hK : (0:Nat) < 10 ^ ds.length := Nat.pos_pow_of_pos _ (by omega)
      have h1 : digitsToNat cs < 10 ^ ds.length := hlen2 ▸ digitsToNat_lt cs ha.2
      have h2 : digitsToNat ds < 10 ^ ds.length := digitsToNat_lt ds hb.2
      obtain ⟨hAB, hv⟩ := nat_block_inj _ _ _ _ _ hK h1 h2 hval
      have b1 := char_digit_bounds c ha.1
      have b2 := char_digit_bounds d hb.1
      have hc : c = d := char_of_toNat_eq c d (by omega)
      rw [hc, ih ds ha.2 hb.2 hlen2 hv]

theorem digitsToNat_one_le (cs : List Char) :
    10 ^ cs.length ≤ digitsToNat ('1' :: cs) := by
  rw [digitsToNat_cons]
  have h1 : '1'.toNat - 48 = 1 := by decide
  rw [h1]
  omega

theorem one_led_digits_inj (as bs : List Char) (ha : as.all Char.isDigit = true)
    (hb : bs.all Char.isDigit = true)
    (h : digitsToNat ('1' :: as) = digitsToNat ('1' :: bs)) : as = bs := by
  have hall1 : ('1' :: as).all Char.isDigit = true := by
    simp only [List.all_cons, ha, Bool.and_true]
    decide
  have hall2 : ('1' :: bs).all Char.isDigit = true := by
    simp only [List.all_cons, hb, Bool.and_true]
    decide
  have hlen : as.length = bs.length := by
    rcases Nat.lt_trichotomy as.length bs.length with hl | hl | hl
    · exfalso
      have u1 : digitsToNat ('1' :: as) < 10 ^ (as.length + 1) := by
        have := digitsToNat_lt _ hall1
        simpa using this
      have u2 : 10 ^ bs.length ≤ digitsToNat ('1' :: bs) := digitsToNat_one_le bs
      have u3 : (10:Nat) ^ (as.length + 1) ≤ 10 ^ bs.length :=
        Nat.pow_le_pow_right (by omega) (by omega)
      omega
    · exact hl
    · exfalso
      have u1 : digitsToNat ('1' :: bs) < 10 ^ (bs.length + 1) := by
        have := digitsToNat_lt _ hall2
        simpa using this
      have u2 : 10 ^ as.length ≤ digitsToNat ('1' :: as) := digitsToNat_one_le as
      have u3 : (10:Nat) ^ (bs.length + 1) ≤ 10 ^ as.length :=
        Nat.pow_le_pow_right (by omega) (by omega)
      omega
  have heq := digits_inj_of_length ('1' :: as) ('1' :: bs) hall1 hall2
    (by simp [hlen]) h
  exact (List.cons.injEq _ _ _ _ ▸ heq).2

theorem pySplit_no_sep (sep : Char) (a : List Char) (h : sep ∉ a) :
    pySplit sep a = [a] := by
  induction a with
  | nil => rfl
  | cons c cs ih =>
    simp only [List.mem_cons, not_or] at h
    have hne : ¬(c = sep) := fun hh => h.1 hh.symm
    simp only [pySplit, hne, if_false, ih h.2]

theorem pySplit_append (sep : Char) (a b : List Char) (h : sep ∉ a) :
    pySplit sep (a ++ sep :: b) = a :: pySplit sep b := by
  induction a with
  | nil => simp [pySplit]
  | cons c cs ih =>
    simp only [List.mem_cons, not_or] at h
    have hne : ¬(c = sep) := fun hh => h.1 hh.symm
    simp only [List.cons_append, pySplit, List.append_eq, hne, if_false, ih h.2]

theorem not_mem_of_all_digit (cs : List Char) (h : cs.all Char.isDigit = true)
    (c : Char) (hc : c.isDigit = false) : c ∉ cs := by
  intro hmem
  have hall := List.all_eq_true.mp h
  have := hall c hmem
  rw [hc] at this
  cases this

theorem int_from_update_render_aux (pfx : String) (year seq : List Char)
    (htd : (toString (utype_int_get pfx.data)).data = [tid_char pfx])
    (htc : (tid_char pfx).isDigit = true)
    (hpd : '-' ∉ pfx.data)
    (hyd : year.all Char.isDigit = true)
    (hsd : seq.all Char.isDigit = true) :
    int_from_update_ch (render_adv_code pfx year seq)
      = Except.ok (digitsToNat
          (('1' :: '0' :: tid_char pfx :: '0' :: year) ++ seq ++ ['0'])) := by
  have hdashY : '-' ∉ year := not_mem_of_all_digit year hyd '-' (by decide)
  have hdashS : '-' ∉ seq := not_mem_of_all_digit seq hsd '-' (by decide)
  have hcolY : ':' ∉ year := not_mem_of_all_digit year hyd ':' (by decide)
  have hcolS : ':' ∉ seq := not_mem_of_all_digit seq hsd ':' (by decide)
  have hdashB : '-' ∉ year ++ ':' :: seq := by
    simp only [List.mem_append, List.mem_cons, not_or]
    exact ⟨hdashY, by decide, hdashS⟩
  have e2 : pySplit ':' (year ++ ':' :: seq) = [year, seq] := by
    rw [pySplit_append ':' year seq hcolY, pySplit_no_sep ':' seq hcolS]
  have e1 : pySplit '-' (pfx.data ++ ('-' :: year) ++ (':' :: seq))
      = [pfx.data, year ++ ':' :: seq] := by
    rw [List.append_assoc, List.cons_append,
        pySplit_append '-' pfx.data (year ++ ':' :: seq) hpd,
        pySplit_no_sep '-' _ hdashB]
  unfold int_from_update_ch render_adv_code
  rw [e1]
  simp only [e2]
  unfold pyIntOfChars
  rw [htd]
  split
  · simp only [List.cons_append, List.nil_append]
  · rename_i hneg
    exfalso
    apply hneg
    constructor
    · simp
    · simp only [List.cons_append, List.nil_append, List.all_cons, List.all_append,
        List.all_nil, Bool.and_eq_true]
      repeat' apply And.intro
      all_goals first | exact htc | exact hyd | exact hsd | decide

theorem int_from_update_render (pfx : String) (year seq : List Char)
    (hw : WfAdvCode pfx year seq) :
    int_from_update_ch (render_adv_code pfx year seq)
      = Except.ok (digitsToNat
          (('1' :: '0' :: tid_char pfx :: '0' :: year) ++ seq ++ ['0'])) := by
  obtain ⟨hp, hy4, hyd, hsne, hsd⟩ := hw
  rcases hp with h | h | h <;> subst h <;>
    exact int_from_update_render_aux _ year seq (by decide) (by decide) (by decide)
      hyd hsd

theorem lex_digit_lt (Yone Ytwo Sone Stwo K : Nat) (hS : Sone < K)
    (hY : Yone < Ytwo) : Yone * K + Sone < Ytwo * K + Stwo := by
  calc Yone * K + Sone < Yone * K + K := by omega
    _ = (Yone + 1) * K := by ring
    _ ≤ Ytwo * K := Nat.mul_le_mul_right _ (by omega)
    _ ≤ Ytwo * K + Stwo := Nat.le_add_right _ _

theorem enc_digits_all (t : Char) (y s : List Char) (ht : t.isDigit = true)
    (hy : y.all Char.isDigit = true) (hs : s.all Char.isDigit = true) :
    (('1' :: '0' :: t :: '0' :: y) ++ s ++ ['0']).all Char.isDigit = true := by
  simp only [List.cons_append, List.nil_append, List.all_cons, List.all_append,
    List.all_nil, Bool.and_eq_true]
  repeat' apply And.intro
  all_goals first | exact ht | exact hy | exact hs | decide

theorem enc_one_led (t : Char) (y s : List Char) :
    (('1' :: '0' :: t :: '0' :: y) ++ s ++ ['0'])
      = '1' :: (((('0' :: t :: '0' :: y) ++ s) ++ ['0'])) := by
  simp only [List.cons_append]

end NumLemmas

/-- C2 counterexample.  The derived id is claimed to use a fixed-width
zero-padded encoding making numeric order match chronological order, with
every advisory of a later year larger than any same-category advisory of an
earlier year.  The sequence part is not padded: RHSA-2017:1 (year 2017) gets
the id 1000201710 while RHSA-2016:28720 (year 2016, five-digit sequence)
gets 10002016287200, so the later-year advisory has the smaller id. -/
theorem c2_later_year_smaller_id :
    int_from_update "RHSA-2016:28720" = Except.ok 10002016287200 ∧
    int_from_update "RHSA-2017:1" = Except.ok 1000201710 ∧
    1000201710 < 10002016287200 := by decide

/-- C2 amended.  For well-formed advisory codes the derivation is injective
(distinct codes give distinct integers); and numeric order matches
chronological order only between advisories of the same category whose
sequence parts have the same digit width: under those conditions a smaller
year yields a smaller id.  (Without the same-width condition the order can
flip, as the counterexample shows.) -/
theorem c2_injective_and_samewidth_monotone
    (p1 : String) (y1 s1 : List Char) (p2 : String) (y2 s2 : List Char)
    (h1 : WfAdvCode p1 y1 s1) (h2 : WfAdvCode p2 y2 s2) :
    (int_from_update_ch (render_adv_code p1 y1 s1)
       = int_from_update_ch (render_adv_code p2 y2 s2) →
     p1 = p2 ∧ y1 = y2 ∧ s1 = s2) ∧
    (p1 = p2 → s1.length = s2.length → digitsToNat y1 < digitsToNat y2 →
     ∃ n1 n2, int_from_update_ch (render_adv_code p1 y1 s1) = Except.ok n1 ∧
       int_from_update_ch (render_adv_code p2 y2 s2) = Except.ok n2 ∧ n1 < n2) := by
  have hw1 := h1
  have hw2 := h2
  obtain ⟨hp1, hy41, hyd1, hsne1, hsd1⟩ := h1
  obtain ⟨hp2, hy42, hyd2, hsne2, hsd2⟩ := h2
  have ht1 : (tid_char p1).isDigit = true := by
    rcases hp1 with h | h | h <;> subst h <;> decide
  have ht2 : (tid_char p2).isDigit = true := by
    rcases hp2 with h | h | h <;> subst h <;> decide
  constructor
  · intro heq
    rw [int_from_update_render p1 y1 s1 hw1, int_from_update_render p2 y2 s2 hw2] at heq
    have hval := Except.ok.inj heq
    rw [enc_one_led, enc_one_led] at hval
    have htails := one_led_digits_inj _ _
      (by
        have := enc_digits_all (tid_char p1) y1 s1 ht1 hyd1 hsd1
        rw [enc_one_led] at this
        simpa using this)
      (by
        have := enc_digits_all (tid_char p2) y2 s2 ht2 hyd2 hsd2
        rw [enc_one_led] at this
        simpa using this)
      hval
    have hzeros : (('0' :: tid_char p1 :: '0' :: y1) ++ s1)
        = (('0' :: tid_char p2 :: '0' :: y2) ++ s2) :=
      List.append_cancel_right htails
    have hheads : ('0' :: tid_char p1 :: '0' :: y1) = ('0' :: tid_char p2 :: '0' :: y2) ∧
        s1 = s2 :=
      List.append_inj hzeros (by simp [hy41, hy42])
    have hyt : tid_char p1 = tid_char p2 ∧ y1 = y2 := by
      have u1 := (List.cons.injEq _ _ _ _ ▸ hheads.1).2
      have u2 := List.cons.injEq _ _ _ _ ▸ u1
      have u3 := (List.cons.injEq _ _ _ _ ▸ u2.2).2
      exact ⟨u2.1, u3⟩
    have hpp : p1 = p2 := by
      rcases hp1 with ha | ha | ha <;> rcases hp2 with hb | hb | hb <;>
        subst ha <;> subst hb <;>
        first | rfl | (exfalso; have := hyt.1; revert this; decide)
    exact ⟨hpp, hyt.2, hheads.2⟩
  · intro hpp hsl hyy
    subst hpp
    refine ⟨_, _, int_from_update_render p1 y1 s1 hw1,
      int_from_update_render p1 y2 s2 hw2, ?_⟩
    have expand : ∀ (y s : List Char),
        digitsToNat (('1' :: '0' :: tid_char p1 :: '0' :: y) ++ s ++ ['0'])
          = ((digitsToNat ['1', '0', tid_char p1, '0'] * 10 ^ y.length + digitsToNat y)
              * 10 ^ s.length + digitsToNat s) * 10 := by
      intro y s
      have e0 : ('1' :: '0' :: tid_char p1 :: '0' :: y)
          = ['1', '0', tid_char p1, '0'] ++ y := rfl
      rw [digitsToNat_append, digitsToNat_append, e0, digitsToNat_append]
      have l3 : digitsToNat ['0'] = 0 := by decide
      have l4 : (['0'] : List Char).length = 1 := rfl
      rw [l3, l4]
      ring
    rw [expand y1 s1, expand y2 s2, hy41, hy42, hsl]
    apply (Nat.mul_lt_mul_right (by omega : (0:Nat) < 10)).mpr
    have hS : digitsToNat s1 < 10 ^ s2.length := by
      have := digitsToNat_lt s1 hsd1
      rw [hsl] at this
      exact this
    exact lex_digit_lt _ _ _ _ _ hS (by
      have := hyy
      omega)

/-- Closed instance of both parts of `c2_injective_and_samewidth_monotone`
at RHSA-2016:2872 and RHSA-2017:1001. -/
theorem c2_injective_and_samewidth_monotone_witness :
    (int_from_update_ch (render_adv_code "RHSA" "2016".data "2872".data)
       = int_from_update_ch (render_adv_code "RHSA" "2017".data "1001".data) →
     "RHSA" = "RHSA" ∧ "2016".data = "2017".data ∧ "2872".data = "1001".data) ∧
    ("RHSA" = "RHSA" → "2872".data.length = "1001".data.length →
     digitsToNat "2016".data < digitsToNat "2017".data →
     ∃ n1 n2, int_from_update_ch (render_adv_code "RHSA" "2016".data "2872".data)
         = Except.ok n1 ∧
       int_from_update_ch (render_adv_code "RHSA" "2017".data "1001".data)
         = Except.ok n2 ∧ n1 < n2) :=
  c2_injective_and_samewidth_monotone "RHSA" "2016".data "2872".data
    "RHSA" "2017".data "1001".data
    (by refine ⟨Or.inl rfl, ?_, ?_, ?_, ?_⟩ <;> decide)
    (by refine ⟨Or.inl rfl, ?_, ?_, ?_, ?_⟩ <;> decide)

section StoreLemmas

theorem applyOps_append (st : DbState) (l1 l2 : List DbOp) :
    applyOps st (l1 ++ l2) = applyOps (applyOps st l1) l2 := by
  unfold applyOps
  rw [List.foldl_append]

theorem applyOps_current (st : DbState) (ops : List DbOp) :
    (applyOps st ops).current = applyRows st.current ops := by
  induction ops generalizing st with
  | nil => rfl
  | cons op rest ih =>
    have h0 : (applyOp st op).current = applyRow st.current op := by
      cases op <;> rfl
    show (applyOps (applyOp st op) rest).current = applyRows (applyRow st.current op) rest
    rw [ih (applyOp st op), h0]

theorem applyOps_last_commit (st : DbState) (l : List DbOp) :
    applyOps st (l ++ [DbOp.commit])
      = { committed := (applyOps st l).current, current := (applyOps st l).current } := by
  rw [applyOps_append]
  rfl

theorem applyRows_commit_cons (s : Store) (ops : List DbOp) :
    applyRows s (DbOp.commit :: ops) = applyRows s ops := rfl

theorem insert_or_ignore_empty (tbl : String) (row : SRow) :
    insert_or_ignore [] tbl row = [(tbl, row)] := by
  unfold insert_or_ignore
  cases htp : tblPkey tbl with
  | none => simp [htp]
  | some pk =>
    cases hg : rowGet row pk with
    | none => simp [htp, hg]
    | some v => simp [htp, hg]

theorem rowsOf_append_ne (s : Store) (tbl tbl2 : String) (row : SRow) (h : tbl2 ≠ tbl) :
    rowsOf (s ++ [(tbl2, row)]) tbl = rowsOf s tbl := by
  unfold rowsOf
  rw [List.filter_append]
  simp [h]

theorem rowsOf_append_eq (s : Store) (tbl : String) (row : SRow) :
    rowsOf (s ++ [(tbl, row)]) tbl = rowsOf s tbl ++ [row] := by
  unfold rowsOf
  rw [List.filter_append]
  simp

theorem mem_rowsOf (s : Store) (tbl : String) (r : SRow) :
    r ∈ rowsOf s tbl ↔ (tbl, r) ∈ s := by
  unfold rowsOf
  rw [List.mem_map]
  constructor
  · rintro ⟨a, ha, rfl⟩
    rw [List.mem_filter] at ha
    have h1 : a.1 = tbl := by simpa using ha.2
    have h2 : a = (tbl, a.2) := by
      cases a
      simp_all
    exact h2 ▸ ha.1
  · intro hmem
    refine ⟨(tbl, r), ?_, rfl⟩
    rw [List.mem_filter]
    exact ⟨hmem, by simp⟩

theorem rowsOf_insert_or_ignore_ne (s : Store) (t : String) (row : SRow) (tbl : String)
    (ht : t ≠ tbl) : rowsOf (insert_or_ignore s t row) tbl = rowsOf s tbl := by
  unfold insert_or_ignore
  cases htp : tblPkey t with
  | none =>
    simp only [htp]
    exact rowsOf_append_ne s tbl t row ht
  | some pk =>
    simp only [htp]
    cases hg : rowGet row pk with
    | none =>
      simp only [hg]
      exact rowsOf_append_ne s tbl t row ht
    | some v =>
      simp only [hg]
      split
      · rfl
      · exact rowsOf_append_ne s tbl t row ht

theorem rowsOf_applyRows_untouched (ops : List DbOp) (s : Store) (tbl : String)
    (h : ∀ t row, DbOp.ins t row ∈ ops → t ≠ tbl) :
    rowsOf (applyRows s ops) tbl = rowsOf s tbl := by
  induction ops generalizing s with
  | nil => rfl
  | cons op rest ih =>
    have hstep : rowsOf (applyRow s op) tbl = rowsOf s tbl := by
      cases op with
      | commit => rfl
      | ins t row =>
        exact rowsOf_insert_or_ignore_ne s t row tbl (h t row (List.mem_cons_self _ _))
    have hrest : ∀ t row, DbOp.ins t row ∈ rest → t ≠ tbl :=
      fun t row hm => h t row (List.mem_cons_of_mem _ hm)
    show rowsOf (applyRows (applyRow s op) rest) tbl = rowsOf s tbl
    rw [ih (applyRow s op) hrest, hstep]

theorem pkPresent_append (s l : Store) (tbl : String) (v : Lit)
    (h : pkPresent s tbl v = true) : pkPresent (s ++ l) tbl v = true := by
  unfold pkPresent at h ⊢
  rw [List.any_append, h, Bool.true_or]

theorem pkPresent_applyRow_mono (s : Store) (op : DbOp) (tbl : String) (v : Lit)
    (h : pkPresent s tbl v = true) : pkPresent (applyRow s op) tbl v = true := by
  cases op with
  | commit => exact h
  | ins t row =>
    show pkPresent (insert_or_ignore s t row) tbl v = true
    unfold insert_or_ignore
    cases htp : tblPkey t with
    | none =>
      simp only [htp]
      exact pkPresent_append s _ tbl v h
    | some pk =>
      simp only [htp]
      cases hg : rowGet row pk with
      | none =>
        simp only [hg]
        exact pkPresent_append s _ tbl v h
      | some v2 =>
        simp only [hg]
        split
        · exact h
        · exact pkPresent_append s _ tbl v h

theorem pkPresent_applyRows_mono (ops : List DbOp) (s : Store) (tbl : String) (v : Lit)
    (h : pkPresent s tbl v = true) : pkPresent (applyRows s ops) tbl v = true := by
  induction ops generalizing s with
  | nil => exact h
  | cons op rest ih => exact ih _ (pkPresent_applyRow_mono s op tbl v h)

theorem pkPresent_after_ins (s : Store) (tbl : String) (row : SRow) (v : Lit)
    (hv : rowGet row "id" = some v) (hpk : tblPkey tbl = some "id") :
    pkPresent (applyRow s (DbOp.ins tbl row)) tbl v = true := by
  show pkPresent (insert_or_ignore s tbl row) tbl v = true
  unfold insert_or_ignore
  simp only [hpk, hv]
  split
  · rename_i hcond
    exact hcond.2
  · unfold pkPresent
    rw [List.any_append]
    simp [hv]

theorem pkPresent_applyRows_of_mem (ops : List DbOp) (s : Store) (tbl : String)
    (row : SRow) (v : Lit) (hmem : DbOp.ins tbl row ∈ ops)
    (hpk : tblPkey tbl = some "id") (hv : rowGet row "id" = some v) :
    pkPresent (applyRows s ops) tbl v = true := by
  induction ops generalizing s with
  | nil => cases hmem
  | cons op rest ih =>
    cases hmem with
    | head =>
      exact pkPresent_applyRows_mono rest _ tbl v (pkPresent_after_ins s tbl row v hv hpk)
    | tail _ hmem2 => exact ih _ hmem2

theorem applyRows_pk_noop (ops : List DbOp) (s : Store) (tbl : String)
    (hpk : tblPkey tbl = some "id")
    (hpres : ∀ row, DbOp.ins tbl row ∈ ops →
        ∃ v, rowGet row "id" = some v ∧ v ≠ Lit.null ∧ pkPresent s tbl v = true) :
    rowsOf (applyRows s ops) tbl = rowsOf s tbl := by
  induction ops generalizing s with
  | nil => rfl
  | cons op rest ih =>
    have hstep : rowsOf (applyRow s op) tbl = rowsOf s tbl := by
      cases op with
      | commit => rfl
      | ins t row =>
        by_cases ht : t = tbl
        · subst ht
          obtain ⟨v, hv, hvn, hp⟩ := hpres row (List.mem_cons_self _ _)
          show rowsOf (insert_or_ignore s t row) t = rowsOf s t
          unfold insert_or_ignore
          simp only [hpk, hv]
          rw [if_pos ⟨hvn, hp⟩]
        · exact rowsOf_insert_or_ignore_ne s t row tbl ht
    have hrest : ∀ row, DbOp.ins tbl row ∈ rest →
        ∃ v, rowGet row "id" = some v ∧ v ≠ Lit.null ∧
          pkPresent (applyRow s op) tbl v = true := by
      intro row hm
      obtain ⟨v, hv, hvn, hp⟩ := hpres row (List.mem_cons_of_mem _ hm)
      exact ⟨v, hv, hvn, pkPresent_applyRow_mono s op tbl v hp⟩
    show rowsOf (applyRows (applyRow s op) rest) tbl = rowsOf s tbl
    rw [ih (applyRow s op) hrest, hstep]

theorem pk_row_ok_ins (tbl : String) (row : SRow) (hpk : tblPkey tbl = some "id")
    (h : pk_row_ok (DbOp.ins tbl row) = true) :
    ∃ v, rowGet row "id" = some v ∧ v ≠ Lit.null := by
  simp only [pk_row_ok, hpk] at h
  cases hv : rowGet row "id" with
  | none => simp [hv] at h
  | some v =>
    simp only [hv] at h
    exact ⟨v, rfl, by simpa using h⟩

theorem pk_distinct_applyRow (s : Store) (op : DbOp) (tbl : String)
    (hpk : tblPkey tbl = some "id") (hok : pk_row_ok op = true)
    (hd : pk_distinct s tbl) : pk_distinct (applyRow s op) tbl := by
  cases op with
  | commit => exact hd
  | ins t row =>
    by_cases ht : t = tbl
    · subst ht
      show pk_distinct (insert_or_ignore s t row) t
      simp only [pk_row_ok, hpk] at hok
      cases hv : rowGet row "id" with
      | none => simp [hv] at hok
      | some v =>
        simp only [hv] at hok
        have hvn : v ≠ Lit.null := by simpa using hok
        unfold insert_or_ignore
        simp only [hpk, hv]
        split
        · exact hd
        · rename_i hcond
          have hnp : pkPresent s t v = false := by
            cases hb : pkPresent s t v with
            | false => rfl
            | true => exact absurd ⟨hvn, hb⟩ hcond
          unfold pk_distinct
          rw [rowsOf_append_eq, List.pairwise_append]
          refine ⟨hd, List.pairwise_singleton _ _, ?_⟩
          intro r1 hr1 r2 hr2
          rw [List.mem_singleton] at hr2
          subst hr2
          rw [hv]
          intro heq
          have hmem := (mem_rowsOf s t r1).mp hr1
          have : pkPresent s t v = true := by
            unfold pkPresent
            rw [List.any_eq_true]
            exact ⟨(t, r1), hmem, by simp [heq]⟩
          rw [this] at hnp
          cases hnp
    · show pk_distinct (insert_or_ignore s t row) tbl
      unfold pk_distinct
      rw [rowsOf_insert_or_ignore_ne s t row tbl ht]
      exact hd

theorem pk_distinct_applyRows (ops : List DbOp) (s : Store) (tbl : String)
    (hpk : tblPkey tbl = some "id") (hok : pk_ins_nonnull ops = true)
    (hd : pk_distinct s tbl) : pk_distinct (applyRows s ops) tbl := by
  induction ops generalizing s with
  | nil => exact hd
  | cons op rest ih =>
    unfold pk_ins_nonnull at hok
    rw [List.all_cons, Bool.and_eq_true] at hok
    exact ih _ hok.2 (pk_distinct_applyRow s op tbl hpk hok.1 hd)

theorem pkPresent_exists (s : Store) (tbl : String) (v : Lit)
    (h : pkPresent s tbl v = true) :
    ∃ r, r ∈ rowsOf s tbl ∧ rowGet r "id" = some v := by
  unfold pkPresent at h
  rw [List.any_eq_true] at h
  obtain ⟨tr, htr, hp⟩ := h
  have hp2 := of_decide_eq_true hp
  refine ⟨tr.2, ?_, hp2.2⟩
  rw [mem_rowsOf]
  have : tr = (tbl, tr.2) := by
    cases tr
    simp_all
  exact this ▸ htr

theorem save_ops_shape (upds : List PyDict) (ops : List DbOp)
    (h : save_uidata_ops upds = Except.ok ops) :
    ∃ os, upds_ops upds = Except.ok os ∧
      ops = DbOp.commit :: DbOp.commit :: (os ++ [DbOp.commit]) := by
  unfold save_uidata_ops at h
  cases hos : upds_ops upds with
  | error e =>
    rw [hos, except_bind_error] at h
    exact absurd h (by simp)
  | ok os =>
    rw [hos, except_bind_ok] at h
    exact ⟨os, rfl, (Except.ok.inj h).symm⟩

theorem take_len_append_cons (pops X : List DbOp) (c : DbOp) :
    (pops ++ c :: X).take (pops.length + 1) = pops ++ [c] := by
  induction pops with
  | nil => rfl
  | cons p ps ih =>
    simp only [List.cons_append, List.length_cons, List.take_succ_cons, ih]

theorem ins_items_ops_tbls (data : PyDict) (tbl : String) (keys : List String)
    (relTbl : String) (relKeys : List String) (items : List PyVal) (ops : List DbOp)
    (h : ins_items_ops data tbl keys relTbl relKeys items = Except.ok ops) :
    ∀ t row, DbOp.ins t row ∈ ops → t = tbl ∨ t = relTbl := by
  induction items generalizing ops with
  | nil =>
    unfold ins_items_ops at h
    cases Except.ok.inj h
    intro t row hm
    cases hm
  | cons item rest ih =>
    cases item with
    | dict d =>
      simp only [ins_items_ops] at h
      cases h1 : keys.mapM (fun k => dictIndex d k) with
      | error e => rw [h1, except_bind_error] at h; exact absurd h (by simp)
      | ok vals =>
        rw [h1, except_bind_ok] at h
        cases h2 : vals.mapM pyvalScalar with
        | error e => rw [h2, except_bind_error] at h; exact absurd h (by simp)
        | ok svals =>
          rw [h2, except_bind_ok] at h
          cases h3 : dictIndex data "id" with
          | error e => rw [h3, except_bind_error] at h; exact absurd h (by simp)
          | ok dataId =>
            rw [h3, except_bind_ok] at h
            cases h4 : dictIndex d "id" with
            | error e => rw [h4, except_bind_error] at h; exact absurd h (by simp)
            | ok itemId =>
              rw [h4, except_bind_ok] at h
              cases h5 : pyvalScalar dataId with
              | error e => rw [h5, except_bind_error] at h; exact absurd h (by simp)
              | ok sDataId =>
                rw [h5, except_bind_ok] at h
                cases h6 : pyvalScalar itemId with
                | error e => rw [h6, except_bind_error] at h; exact absurd h (by simp)
                | ok sItemId =>
                  rw [h6, except_bind_ok] at h
                  cases h7 : ins_items_ops data tbl keys relTbl relKeys rest with
                  | error e => rw [h7, except_bind_error] at h; exact absurd h (by simp)
                  | ok restOps =>
                    rw [h7, except_bind_ok] at h
                    have hops := (Except.ok.inj h).symm
                    subst hops
                    intro t row hm
                    cases hm with
                    | head => exact Or.inl rfl
                    | tail _ hm2 =>
                      cases hm2 with
                      | head => exact Or.inr rfl
                      | tail _ hm3 => exact ih restOps h7 t row hm3
    | str s2 => simp [ins_items_ops] at h
    | int n => simp [ins_items_ops] at h
    | null => simp [ins_items_ops] at h
    | list l => simp [ins_items_ops] at h

theorem ins_list_values_tbls (data : PyDict) (ikey tbl : String) (keys : List String)
    (relTbl : String) (relKeys : List String) (ops : List DbOp)
    (h : ins_list_values_with_rels data ikey tbl keys relTbl relKeys = Except.ok ops) :
    ∀ t row, DbOp.ins t row ∈ ops → t = tbl ∨ t = relTbl := by
  unfold ins_list_values_with_rels at h
  cases hv : dictGet data ikey with
  | none =>
    simp only [hv, except_bind_ok] at h
    exact ins_items_ops_tbls data tbl keys relTbl relKeys [] ops h
  | some v =>
    simp only [hv] at h
    cases v with
    | list xs =>
      simp only [except_bind_ok] at h
      exact ins_items_ops_tbls data tbl keys relTbl relKeys xs ops h
    | dict kvs =>
      cases kvs with
      | nil =>
        simp only [except_bind_ok] at h
        exact ins_items_ops_tbls data tbl keys relTbl relKeys [] ops h
      | cons kv rest2 =>
        simp only [except_bind_error] at h
        exact absurd h (by simp)
    | str s2 =>
      simp only [except_bind_error] at h
      exact absurd h (by simp)
    | int n =>
      simp only [except_bind_error] at h
      exact absurd h (by simp)
    | null =>
      simp only [except_bind_error] at h
      exact absurd h (by simp)

theorem applyRows_append (s : Store) (l1 l2 : List DbOp) :
    applyRows s (l1 ++ l2) = applyRows (applyRows s l1) l2 := by
  unfold applyRows
  rw [List.foldl_append]

end StoreLemmas

/-- C4 amended.  The persister does not wrap each advisory in one
transaction: a commit follows the package inserts (create.py line 429) and
another follows the reference inserts (line 434).  When a run over one
advisory dies at its first reference insert, exactly the operations before
it have executed, and the store then shows the advisory row and its package
rows while holding no reference row at all. -/
theorem c4_reference_failure_leaves_partial_advisory
    (upd : PyDict) (uvals : List (Option Lit)) (pops rops reps : List DbOp)
    (huv : UPD_KEYS.mapM (fun k => get_value (PyVal.dict upd) k) = Except.ok uvals)
    (hpk : ins_list_values_with_rels upd "pkglist" "packages" PKG_KEYS
        "update_packages" ["uid", "pid"] = Except.ok pops)
    (hrf : ins_list_values_with_rels upd "references" "refs" REF_KEYS
        "update_refs" ["uid", "rid"] = Except.ok rops)
    (hrp : repos_ops upd = Except.ok reps) :
    ∃ ops, save_uidata_ops [upd] = Except.ok ops ∧
      ops.take (4 + pops.length)
        = DbOp.commit :: DbOp.commit
            :: DbOp.ins "updates" (insert_values_row UPD_KEYS uvals)
            :: (pops ++ [DbOp.commit]) ∧
      rowsOf (visible_after ops (4 + pops.length)) "updates"
        = [insert_values_row UPD_KEYS uvals] ∧
      rowsOf (visible_after ops (4 + pops.length)) "refs" = [] := by
  have hupd : upd_ops upd = Except.ok
      (DbOp.ins "updates" (insert_values_row UPD_KEYS uvals)
        :: (pops ++ DbOp.commit :: (rops ++ DbOp.commit :: reps))) := by
    unfold upd_ops
    rw [huv, except_bind_ok, hpk, except_bind_ok, hrf, except_bind_ok, hrp, except_bind_ok]
  have hupds : upds_ops [upd] = Except.ok
      (DbOp.ins "updates" (insert_values_row UPD_KEYS uvals)
        :: (pops ++ DbOp.commit :: (rops ++ DbOp.commit :: reps))) := by
    simp only [upds_ops, hupd, except_bind_ok, List.append_nil]
  have hops : save_uidata_ops [upd] = Except.ok
      (DbOp.commit :: DbOp.commit
        :: ((DbOp.ins "updates" (insert_values_row UPD_KEYS uvals)
              :: (pops ++ DbOp.commit :: (rops ++ DbOp.commit :: reps)))
            ++ [DbOp.commit])) := by
    unfold save_uidata_ops
    rw [hupds, except_bind_ok]
  have htake : (DbOp.commit :: DbOp.commit
        :: ((DbOp.ins "updates" (insert_values_row UPD_KEYS uvals)
              :: (pops ++ DbOp.commit :: (rops ++ DbOp.commit :: reps)))
            ++ [DbOp.commit])).take (4 + pops.length)
      = DbOp.commit :: DbOp.commit
          :: DbOp.ins "updates" (insert_values_row UPD_KEYS uvals)
          :: (pops ++ [DbOp.commit]) := by
    rw [show 4 + pops.length = ((pops.length + 1) + 1 + 1) + 1 from by omega]
    show (DbOp.commit :: DbOp.commit
        :: DbOp.ins "updates" (insert_values_row UPD_KEYS uvals)
        :: ((pops ++ DbOp.commit :: (rops ++ DbOp.commit :: reps)) ++ [DbOp.commit])).take
          (((pops.length + 1) + 1 + 1) + 1) = _
    rw [List.take_succ_cons, List.take_succ_cons, List.take_succ_cons,
        List.append_assoc, List.cons_append, take_len_append_cons]
  have hvis : visible_after (DbOp.commit :: DbOp.commit
        :: ((DbOp.ins "updates" (insert_values_row UPD_KEYS uvals)
              :: (pops ++ DbOp.commit :: (rops ++ DbOp.commit :: reps)))
            ++ [DbOp.commit])) (4 + pops.length)
      = applyRows [("updates", insert_values_row UPD_KEYS uvals)] pops := by
    unfold visible_after
    rw [htake]
    show (applyOps (applyOp (applyOp (applyOp { committed := [], current := [] }
        DbOp.commit) DbOp.commit)
        (DbOp.ins "updates" (insert_values_row UPD_KEYS uvals)))
        (pops ++ [DbOp.commit])).committed = _
    rw [applyOps_last_commit]
    show (applyOps
        { committed := ([] : Store),
          current := insert_or_ignore [] "updates" (insert_values_row UPD_KEYS uvals) }
        pops).current = _
    rw [applyOps_current, insert_or_ignore_empty]
  have htbls : ∀ t row, DbOp.ins t row ∈ pops → t = "packages" ∨ t = "update_packages" :=
    ins_list_values_tbls upd "pkglist" "packages" PKG_KEYS "update_packages"
      ["uid", "pid"] pops hpk
  refine ⟨_, hops, htake, ?_, ?_⟩
  · rw [hvis, rowsOf_applyRows_untouched pops _ "updates"
      (fun t row hm => by rcases htbls t row hm with h | h <;> subst h <;> decide)]
    simp [rowsOf]
  · rw [hvis, rowsOf_applyRows_untouched pops _ "refs"
      (fun t row hm => by rcases htbls t row hm with h | h <;> subst h <;> decide)]
    simp [rowsOf]

/-- Closed instance of `c4_reference_failure_leaves_partial_advisory` at the
one-package one-reference advisory `c4_input`. -/
theorem c4_reference_failure_witness :
    ∃ ops, save_uidata_ops [c4_input] = Except.ok ops ∧
      ops.take (4 + ([DbOp.ins "packages"
          [("id", Lit.int 77), ("name", Lit.str "kernel"), ("version", Lit.str "3.10.0"),
           ("release", Lit.str "123.el7"), ("epoch", Lit.int 0), ("arch", Lit.str "x86_64"),
           ("src", Lit.str "kernel.src.rpm")],
        DbOp.ins "update_packages" [("uid", Lit.int 1), ("pid", Lit.int 77)]] : List DbOp).length)
        = DbOp.commit :: DbOp.commit
            :: DbOp.ins "updates" (insert_values_row UPD_KEYS
                 [some (Lit.int 1), none, some (Lit.str "T"), none, none, none,
                  none, none, none, none, none, none])
            :: ([DbOp.ins "packages"
                  [("id", Lit.int 77), ("name", Lit.str "kernel"), ("version", Lit.str "3.10.0"),
                   ("release", Lit.str "123.el7"), ("epoch", Lit.int 0), ("arch", Lit.str "x86_64"),
                   ("src", Lit.str "kernel.src.rpm")],
                 DbOp.ins "update_packages" [("uid", Lit.int 1), ("pid", Lit.int 77)]]
                ++ [DbOp.commit]) ∧
      rowsOf (visible_after ops (4 + ([DbOp.ins "packages"
          [("id", Lit.int 77), ("name", Lit.str "kernel"), ("version", Lit.str "3.10.0"),
           ("release", Lit.str "123.el7"), ("epoch", Lit.int 0), ("arch", Lit.str "x86_64"),
           ("src", Lit.str "kernel.src.rpm")],
        DbOp.ins "update_packages" [("uid", Lit.int 1), ("pid", Lit.int 77)]] : List DbOp).length))
        "updates"
        = [insert_values_row UPD_KEYS
            [some (Lit.int 1), none, some (Lit.str "T"), none, none, none,
             none, none, none, none, none, none]] ∧
      rowsOf (visible_after ops (4 + ([DbOp.ins "packages"
          [("id", Lit.int 77), ("name", Lit.str "kernel"), ("version", Lit.str "3.10.0"),
           ("release", Lit.str "123.el7"), ("epoch", Lit.int 0), ("arch", Lit.str "x86_64"),
           ("src", Lit.str "kernel.src.rpm")],
        DbOp.ins "update_packages" [("uid", Lit.int 1), ("pid", Lit.int 77)]] : List DbOp).length))
        "refs" = [] :=
  c4_reference_failure_leaves_partial_advisory c4_input
    [some (Lit.int 1), none, some (Lit.str "T"), none, none, none,
     none, none, none, none, none, none]
    [DbOp.ins "packages"
      [("id", Lit.int 77), ("name", Lit.str "kernel"), ("version", Lit.str "3.10.0"),
       ("release", Lit.str "123.el7"), ("epoch", Lit.int 0), ("arch", Lit.str "x86_64"),
       ("src", Lit.str "kernel.src.rpm")],
     DbOp.ins "update_packages" [("uid", Lit.int 1), ("pid", Lit.int 77)]]
    [DbOp.ins "refs"
      [("id", Lit.str "CVE-2016-1"), ("title", Lit.str "cve title"),
       ("type", Lit.str "cve"), ("href", Lit.str "http://cve.example/1")],
     DbOp.ins "update_refs" [("uid", Lit.int 1), ("rid", Lit.str "CVE-2016-1")]]
    [DbOp.ins "update_repos"
      [("uid", Lit.int 1), ("repo_id", Lit.str "alpha"), ("repo_name", Lit.str "Alpha")]]
    (by decide) (by decide) (by decide) (by decide)

/-- C5.  Running the persister twice over the same update list against the
same initially empty store is idempotent on the three primary-keyed tables:
the second run leaves them unchanged, after the first run each of them holds
pairwise-distinct id values (one row per distinct advisory, package and
reference), and every inserted advisory, package and reference has its row
present.  The hypotheses ask that every insert into a keyed table carries a
usable (non-NULL) id, which the id derivations of the pipeline guarantee. -/
theorem c5_rerun_adds_no_rows (upds : List PyDict) (ops : List DbOp) (st1 st2 : DbState)
    (hops : save_uidata_ops upds = Except.ok ops)
    (hnn : pk_ins_nonnull ops = true)
    (hrun1 : save_uidata_to_sqlite { committed := [], current := [] } upds = Except.ok st1)
    (hrun2 : save_uidata_to_sqlite st1 upds = Except.ok st2) :
    (∀ tbl, tblPkey tbl = some "id" →
        rowsOf st2.committed tbl = rowsOf st1.committed tbl) ∧
    (∀ tbl, tblPkey tbl = some "id" → pk_distinct st1.committed tbl) ∧
    (∀ tbl row, DbOp.ins tbl row ∈ ops → tblPkey tbl = some "id" →
        ∃ r, r ∈ rowsOf st1.committed tbl ∧ rowGet r "id" = rowGet row "id") := by
  obtain ⟨os, hos, hshape⟩ := save_ops_shape upds ops hops
  unfold save_uidata_to_sqlite at hrun1 hrun2
  rw [hops, except_bind_ok] at hrun1 hrun2
  have hst1 : st1 = applyOps { committed := [], current := [] } ops :=
    (Except.ok.inj hrun1).symm
  have hst2 : st2 = applyOps st1 ops := (Except.ok.inj hrun2).symm
  have hcc : ∀ st : DbState, applyOps st ops
      = { committed := applyRows st.current ops, current := applyRows st.current ops } := by
    intro st
    have h2 : applyOps st ops
        = applyOps st ((DbOp.commit :: DbOp.commit :: os) ++ [DbOp.commit]) := by
      rw [hshape]
      rfl
    have h1 : applyRows st.current ops
        = applyRows st.current (DbOp.commit :: DbOp.commit :: os) := by
      rw [hshape]
      show applyRows st.current ((DbOp.commit :: DbOp.commit :: os) ++ [DbOp.commit]) = _
      rw [applyRows_append]
      rfl
    rw [h2, applyOps_last_commit, applyOps_current, ← h1]
  have hs1 : st1 = { committed := applyRows [] ops, current := applyRows [] ops } := by
    rw [hst1, hcc]
  have hs2c : st2.committed = applyRows (applyRows [] ops) ops := by
    rw [hst2, hcc st1, hs1]
  have hpresS1 : ∀ tbl row, DbOp.ins tbl row ∈ ops → tblPkey tbl = some "id" →
      ∃ v, rowGet row "id" = some v ∧ v ≠ Lit.null ∧
        pkPresent (applyRows [] ops) tbl v = true := by
    intro tbl row hmem hpk2
    obtain ⟨v, hv, hvn⟩ := pk_row_ok_ins tbl row hpk2
      (List.all_eq_true.mp hnn _ hmem)
    exact ⟨v, hv, hvn, pkPresent_applyRows_of_mem ops [] tbl row v hmem hpk2 hv⟩
  refine ⟨?_, ?_, ?_⟩
  · intro tbl hpk2
    rw [hs2c, hs1]
    exact applyRows_pk_noop ops (applyRows [] ops) tbl hpk2
      (fun row hm => hpresS1 tbl row hm hpk2)
  · intro tbl hpk2
    rw [hs1]
    exact pk_distinct_applyRows ops [] tbl hpk2 hnn
      (by unfold pk_distinct rowsOf; exact List.Pairwise.nil)
  · intro tbl row hmem hpk2
    obtain ⟨v, hv, hvn, hp⟩ := hpresS1 tbl row hmem hpk2
    obtain ⟨r, hr, hrv⟩ := pkPresent_exists _ _ _ hp
    refine ⟨r, ?_, ?_⟩
    · rw [hs1]
      exact hr
    · rw [hrv, hv]

/-- Closed instance of `c5_rerun_adds_no_rows` at a one-advisory input. -/
theorem c5_rerun_adds_no_rows_witness :
    rowsOf ([("updates", [("id", Lit.int 1)])] : Store) "updates"
      = rowsOf ([("updates", [("id", Lit.int 1)])] : Store) "updates" ∧
    pk_distinct ([("updates", [("id", Lit.int 1)])] : Store) "updates" ∧
    (∃ r, r ∈ rowsOf ([("updates", [("id", Lit.int 1)])] : Store) "updates" ∧
      rowGet r "id" = rowGet [("id", Lit.int 1)] "id") :=
  have hmain := c5_rerun_adds_no_rows [[("id", PyVal.int 1)]]
    [DbOp.commit, DbOp.commit, DbOp.ins "updates" [("id", Lit.int 1)],
     DbOp.commit, DbOp.commit, DbOp.commit]
    ⟨[("updates", [("id", Lit.int 1)])], [("updates", [("id", Lit.int 1)])]⟩
    ⟨[("updates", [("id", Lit.int 1)])], [("updates", [("id", Lit.int 1)])]⟩
    (by decide) (by decide) (by decide) (by decide)
  ⟨hmain.1 "updates" rfl,
   hmain.2.1 "updates" rfl,
   hmain.2.2 "updates" [("id", Lit.int 1)] (by decide) rfl⟩

end FleureDb
